import Mathlib

/-!
Verification of the UDLG NRBF record codec (`src/udlg_tools.py`).

The Python source is shallowly embedded: the byte stream is a `List Nat`
(each element a byte value `< 256`, as guaranteed by Python's `bytes`
type), Python `int` values become `Nat`/`Int`, fallible operations
return `Except`, and the unbounded record recursion is driven by an
explicit fuel parameter.  Decoded strings are kept as their (validated)
UTF-8 byte sequences: the codec only ever re-encodes them, and Python's
strict `decode("utf-8")`/`encode("utf-8")` round-trips the exact bytes,
so the byte sequence is a faithful carrier for the `str` value.
`Single`/`Double` primitives are likewise carried as their raw 4/8
bytes: the codec only unpacks and repacks them.
-/

namespace Udlg

/-- A byte stream: Python `bytes`, each element `< 256`. -/
abbrev Bytes := List Nat

/-- Well-formedness of a byte stream: every element is a real byte. -/
def bytesWF (bs : Bytes) : Prop := ∀ b ∈ bs, b < 256

/-- `UDLG_SIGNATURE = bytes.fromhex("F9538B831F363243BAAE0D17865D0854")`. -/
def udlgSignature : Bytes :=
  [0xF9, 0x53, 0x8B, 0x83, 0x1F, 0x36, 0x32, 0x43,
   0xBA, 0xAE, 0x0D, 0x17, 0x86, 0x5D, 0x08, 0x54]

/-- Little-endian value of a byte list (`struct.unpack` with `<`). -/
def natFromLE : Bytes → Nat
  | [] => 0
  | b :: rest => b + 256 * natFromLE rest

/-- Little-endian encoding of `n` in `w` bytes (`struct.pack` with `<`). -/
def natToLE (w : Nat) (n : Nat) : Bytes :=
  match w with
  | 0 => []
  | w + 1 => n % 256 :: natToLE w (n / 256)

/-- Two's-complement reading of a `w*8`-bit pattern as a signed integer
(`struct.unpack` with a signed format character). -/
def toSigned (w : Nat) (n : Nat) : Int :=
  if n < 2 ^ (8 * w - 1) then (n : Int) else (n : Int) - 2 ^ (8 * w)

/-- Errors raised while decoding.  Each constructor records which Python
exception the source raises at the corresponding program point. -/
inductive DErr where
  /-- `EOFError("Unexpected end of stream while reading.")` in `NetSerializer.read`. -/
  | eofError
  /-- `ValueError("Invalid 7-bit encoded int, shift too large.")`. -/
  | invalidVarint
  /-- `UnicodeDecodeError` from `bytes.decode("utf-8")`. -/
  | invalidUtf8
  /-- `ValueError` from an `Enum` constructor on an out-of-range byte. -/
  | badEnumValue
  /-- `ValueError(f"Unsupported primitive type: ...")`. -/
  | unsupportedPrimitive
  /-- `ValueError(f"Unsupported record type: ...")` (no handler in the dispatch table). -/
  | unsupportedRecord
  /-- `NotImplementedError` for a `BinaryArray` with an `Offset` kind or `rank > 1`. -/
  | unsupportedArrayShape
  /-- `ValueError("Too many records in array.")`. -/
  | arrayOverrun
  /-- `IndexError` (e.g. `lengths[0]` on an empty list, or a member-type list index). -/
  | indexError
  /-- `TypeError`/`KeyError`/`AttributeError` when `ClassWithId` metadata resolution
  returns `None`, a list, or a record without `ClassInfo`/`MemberTypeInfo`. -/
  | unresolvedMetadata
  /-- `KeyError` from `PrimitiveType[additional_info]` when the member extra is
  not a primitive-kind name. -/
  | badPrimitiveName
  /-- `IOError("Error decompressing gzip payload: ...")` in `UDLG.parse`. -/
  | decompressFailed
  /-- Artificial: the fuel bound was exhausted (the Python recursion has no
  such bound; theorems quantify over or instantiate sufficient fuel). -/
  | outOfFuel
  deriving DecidableEq, Repr

/-- Pure core of `read_write_7bit_encoded_int` (read mode): consume base-128
digits from the stream.  `shift`/`result` mirror the loop state. -/
def read7bitCore : Bytes → Nat → Nat → Except DErr (Nat × Bytes)
  | [], _, _ => .error .eofError
  | b :: rest, shift, result =>
    let result := result ||| ((b &&& 127) <<< shift)
    if b &&& 128 = 0 then .ok (result, rest)
    else if shift + 7 ≥ 35 then .error .invalidVarint
    else read7bitCore rest (shift + 7) result

/-- Loop body of `read_write_7bit_encoded_int` (write mode), for a positive
value; the fuel is only a termination bound (`value` shrinks by `/ 128`). -/
def write7bitAux : Nat → Nat → Bytes
  | 0, _ => []
  | f + 1, v =>
    let b := v % 128
    let v2 := v / 128
    if v2 > 0 then (b ||| 128) :: write7bitAux f v2 else [b]

/-- `read_write_7bit_encoded_int` (write mode): zero is the single byte `00`,
otherwise base-128 digits low-to-high with the high bit on all but the last. -/
def write7bitEncodedInt (v : Nat) : Bytes :=
  if v = 0 then [0] else write7bitAux v v

/-- Strict UTF-8 validity, as enforced by Python's `bytes.decode("utf-8")`:
rejects overlong forms, surrogates and code points above `U+10FFFF`. -/
def utf8Valid : Bytes → Bool
  | [] => true
  | b :: rest =>
    if b < 0x80 then utf8Valid rest
    else if 0xC2 ≤ b ∧ b ≤ 0xDF then
      match rest with
      | c1 :: rest2 => 0x80 ≤ c1 && c1 ≤ 0xBF && utf8Valid rest2
      | _ => false
    else if 0xE0 ≤ b ∧ b ≤ 0xEF then
      match rest with
      | c1 :: c2 :: rest2 =>
        (if b = 0xE0 then 0xA0 ≤ c1 && c1 ≤ 0xBF
         else if b = 0xED then 0x80 ≤ c1 && c1 ≤ 0x9F
         else 0x80 ≤ c1 && c1 ≤ 0xBF) &&
        (0x80 ≤ c2 && c2 ≤ 0xBF) && utf8Valid rest2
      | _ => false
    else if 0xF0 ≤ b ∧ b ≤ 0xF4 then
      match rest with
      | c1 :: c2 :: c3 :: rest2 =>
        (if b = 0xF0 then 0x90 ≤ c1 && c1 ≤ 0xBF
         else if b = 0xF4 then 0x80 ≤ c1 && c1 ≤ 0x8F
         else 0x80 ≤ c1 && c1 ≤ 0xBF) &&
        (0x80 ≤ c2 && c2 ≤ 0xBF) && (0x80 ≤ c3 && c3 ≤ 0xBF) && utf8Valid rest2
      | _ => false
    else false

end Udlg

namespace Udlg

/-- `PrimitiveType` (values 1..18, no 4). -/
inductive PrimitiveType where
  | Boolean | Byte | Char | Decimal | Double | Int16 | Int32 | Int64
  | SByte | Single | TimeSpan | DateTime | UInt16 | UInt32 | UInt64
  | Null | String
  deriving DecidableEq, Repr

/-- The numeric value of a `PrimitiveType` member. -/
def PrimitiveType.val : PrimitiveType → Nat
  | .Boolean => 1 | .Byte => 2 | .Char => 3 | .Decimal => 5 | .Double => 6
  | .Int16 => 7 | .Int32 => 8 | .Int64 => 9 | .SByte => 10 | .Single => 11
  | .TimeSpan => 12 | .DateTime => 13 | .UInt16 => 14 | .UInt32 => 15
  | .UInt64 => 16 | .Null => 17 | .String => 18

/-- `PrimitiveType(n)`: the Enum constructor, `ValueError` on other values. -/
def PrimitiveType.ofNat? : Nat → Option PrimitiveType
  | 1 => some .Boolean | 2 => some .Byte | 3 => some .Char | 5 => some .Decimal
  | 6 => some .Double | 7 => some .Int16 | 8 => some .Int32 | 9 => some .Int64
  | 10 => some .SByte | 11 => some .Single | 12 => some .TimeSpan
  | 13 => some .DateTime | 14 => some .UInt16 | 15 => some .UInt32
  | 16 => some .UInt64 | 17 => some .Null | 18 => some .String
  | _ => none

/-- `BinaryType` (values 0..7). -/
inductive BinaryType where
  | Primitive | String | Object | SystemClass | Class
  | ObjectArray | StringArray | PrimitiveArray
  deriving DecidableEq, Repr

def BinaryType.val : BinaryType → Nat
  | .Primitive => 0 | .String => 1 | .Object => 2 | .SystemClass => 3
  | .Class => 4 | .ObjectArray => 5 | .StringArray => 6 | .PrimitiveArray => 7

def BinaryType.ofNat? : Nat → Option BinaryType
  | 0 => some .Primitive | 1 => some .String | 2 => some .Object
  | 3 => some .SystemClass | 4 => some .Class | 5 => some .ObjectArray
  | 6 => some .StringArray | 7 => some .PrimitiveArray
  | _ => none

/-- `BinaryArrayType` (values 0..5). -/
inductive BinaryArrayType where
  | Single | Jagged | Rectangular | SingleOffset | JaggedOffset | RectangularOffset
  deriving DecidableEq, Repr

def BinaryArrayType.val : BinaryArrayType → Nat
  | .Single => 0 | .Jagged => 1 | .Rectangular => 2
  | .SingleOffset => 3 | .JaggedOffset => 4 | .RectangularOffset => 5

def BinaryArrayType.ofNat? : Nat → Option BinaryArrayType
  | 0 => some .Single | 1 => some .Jagged | 2 => some .Rectangular
  | 3 => some .SingleOffset | 4 => some .JaggedOffset | 5 => some .RectangularOffset
  | _ => none

/-- `binary_array_type.name.endswith("Offset")`. -/
def BinaryArrayType.endsWithOffset : BinaryArrayType → Bool
  | .SingleOffset | .JaggedOffset | .RectangularOffset => true
  | _ => false

/-- `RecordType` (values 0..17, 21, 22). -/
inductive RecordType where
  | SerializedStreamHeader | ClassWithId | SystemClassWithMembers
  | ClassWithMembers | SystemClassWithMembersAndTypes | ClassWithMembersAndTypes
  | BinaryObjectString | BinaryArray | MemberPrimitiveTyped | MemberReference
  | ObjectNull | MessageEnd | BinaryLibrary | ObjectNullMultiple256
  | ObjectNullMultiple | ArraySinglePrimitive | ArraySingleObject
  | ArraySingleString | MethodCall | MethodReturn
  deriving DecidableEq, Repr

def RecordType.val : RecordType → Nat
  | .SerializedStreamHeader => 0 | .ClassWithId => 1 | .SystemClassWithMembers => 2
  | .ClassWithMembers => 3 | .SystemClassWithMembersAndTypes => 4
  | .ClassWithMembersAndTypes => 5 | .BinaryObjectString => 6 | .BinaryArray => 7
  | .MemberPrimitiveTyped => 8 | .MemberReference => 9 | .ObjectNull => 10
  | .MessageEnd => 11 | .BinaryLibrary => 12 | .ObjectNullMultiple256 => 13
  | .ObjectNullMultiple => 14 | .ArraySinglePrimitive => 15
  | .ArraySingleObject => 16 | .ArraySingleString => 17
  | .MethodCall => 21 | .MethodReturn => 22

def RecordType.ofNat? : Nat → Option RecordType
  | 0 => some .SerializedStreamHeader | 1 => some .ClassWithId
  | 2 => some .SystemClassWithMembers | 3 => some .ClassWithMembers
  | 4 => some .SystemClassWithMembersAndTypes | 5 => some .ClassWithMembersAndTypes
  | 6 => some .BinaryObjectString | 7 => some .BinaryArray
  | 8 => some .MemberPrimitiveTyped | 9 => some .MemberReference
  | 10 => some .ObjectNull | 11 => some .MessageEnd | 12 => some .BinaryLibrary
  | 13 => some .ObjectNullMultiple256 | 14 => some .ObjectNullMultiple
  | 15 => some .ArraySinglePrimitive | 16 => some .ArraySingleObject
  | 17 => some .ArraySingleString | 21 => some .MethodCall | 22 => some .MethodReturn
  | _ => none

/-- `DateTimeKind`: the decoded `"Kind"` field (`"UTC"`, `"Local"` or `None`). -/
inductive DtKind where
  | utc | local | unspecified
  deriving DecidableEq, Repr

/-- A primitive value as produced by `read_write_primitive`.  Integers of
every width land in `pInt` (Python `int`); `Single`/`Double` keep their raw
little-endian bytes (the source unpacks to `float` and repacks, which is a
byte-level identity); `Char`, `String` and `Decimal` are carried as their
UTF-8 bytes. -/
inductive PrimValue where
  | pBool (b : Bool)
  | pInt (i : Int)
  | pF32 (raw : Bytes)
  | pF64 (raw : Bytes)
  | pStr (s : Bytes)
  | pDateTime (kind : DtKind) (ticks : Int)
  deriving DecidableEq, Repr

/-- `ClassInfo` as read by `read_write_class_info`. -/
structure ClassInfo where
  objectId : Int
  name : Bytes
  memberCount : Int
  memberNames : List Bytes
  deriving DecidableEq, Repr

/-- The per-member extra payload of `read_write_binary_type_info`. -/
inductive ExtraInfo where
  /-- For `Primitive` / `PrimitiveArray`: a `PrimitiveType` (stored by name). -/
  | primType (pt : PrimitiveType)
  /-- For `SystemClass`: a type-name string. -/
  | sysClass (typeName : Bytes)
  /-- For `Class`: a `ClassTypeInfo` (`TypeName`, `LibraryId`). -/
  | classTypeInfo (typeName : Bytes) (libraryId : Int)
  /-- For `String` / `StringArray` / `Object`: `None`. -/
  | noInfo
  deriving DecidableEq, Repr

/-- `MemberTypeInfo`: the two parallel lists `BinaryTypeEnums` / `AdditionalInfos`. -/
structure MemberTypeInfo where
  btypes : List BinaryType
  extras : List ExtraInfo
  deriving DecidableEq, Repr

end Udlg

namespace Udlg

mutual

/-- A member value inside a class's `Values` list: either a primitive
(when the member's `BinaryType` is `Primitive`) or a nested record
(`read_write_value`). -/
inductive MValue where
  | prim (p : PrimValue)
  | record (r : Rec)
  deriving Repr

/-- One record per `RecordType`, carrying the fields its handler reads.
Dictionary keys of the source appear as constructor arguments in the
source's insertion order. -/
inductive Rec where
  /-- `{RootId, HeaderId, MajorVersion, MinorVersion}`. -/
  | serializedStreamHeader (rootId headerId majorVersion minorVersion : Int)
  /-- `{ObjectId, MetadataId, Values}` — no `MemberTypeInfo` of its own. -/
  | classWithId (objectId metadataId : Int) (values : List MValue)
  /-- `{ClassInfo}` — metadata only, no values are read. -/
  | systemClassWithMembers (classInfo : ClassInfo)
  /-- `{ClassInfo, LibraryId}` — metadata only, no values are read. -/
  | classWithMembers (classInfo : ClassInfo) (libraryId : Int)
  /-- `{ClassInfo, MemberTypeInfo, Values}`. -/
  | systemClassWithMembersAndTypes (classInfo : ClassInfo)
      (memberTypeInfo : MemberTypeInfo) (values : List MValue)
  /-- `{ClassInfo, MemberTypeInfo, LibraryId, Values}`. -/
  | classWithMembersAndTypes (classInfo : ClassInfo)
      (memberTypeInfo : MemberTypeInfo) (libraryId : Int) (values : List MValue)
  /-- `{ObjectId, Value}`. -/
  | binaryObjectString (objectId : Int) (value : Bytes)
  /-- `{ObjectId, BinaryArrayTypeEnum, rank, Lengths, LowerBounds, TypeEnum,
  AdditionalTypeInfo, Values}`. -/
  | binaryArray (objectId : Int) (arrayType : BinaryArrayType) (rank : Int)
      (lengths : List Int) (lowerBounds : List Int) (typeEnum : BinaryType)
      (additionalTypeInfo : ExtraInfo) (values : List Rec)
  /-- `{PrimitiveTypeEnum, Value}`. -/
  | memberPrimitiveTyped (primitiveType : PrimitiveType) (value : PrimValue)
  /-- `{IdRef}`. -/
  | memberReference (idRef : Int)
  /-- `{}`. -/
  | objectNull
  /-- `{}`. -/
  | messageEnd
  /-- `{LibraryId, LibraryName}`. -/
  | binaryLibrary (libraryId : Int) (libraryName : Bytes)
  /-- `{NullCount}` with a one-byte count. -/
  | objectNullMultiple256 (nullCount : Nat)
  /-- `{NullCount}` with an `Int32` count (it may be negative). -/
  | objectNullMultiple (nullCount : Int)
  /-- `{ArrayInfo, PrimitiveTypeEnum, Values}`. -/
  | arraySinglePrimitive (objectId lengthVal : Int) (primitiveType : PrimitiveType)
      (values : List PrimValue)
  /-- `{ArrayInfo, Values}`. -/
  | arraySingleObject (objectId lengthVal : Int) (values : List Rec)
  /-- `{ArrayInfo, Values}`. -/
  | arraySingleString (objectId lengthVal : Int) (values : List Rec)
  deriving Repr

end

/-- `isinstance(value, dict) and "NullCount" in value`, together with the
count used for the slot-cursor update. -/
def Rec.nullCountOf : Rec → Option Int
  | .objectNullMultiple256 c => some (c : Int)
  | .objectNullMultiple c => some c
  | _ => none

/-- The slot contribution of one decoded element record: its `NullCount`
for a null-run record, otherwise 1. -/
def Rec.slotContribution (r : Rec) : Int := (r.nullCountOf).getD 1

/-- Sum of slot contributions of a list of element records. -/
def slotSum (rs : List Rec) : Int := (rs.map Rec.slotContribution).sum

/-- `RecordType[record["RecordTypeEnum"]]` for a decoded record: the tag
under which the record is (re-)serialized. -/
def Rec.recordType : Rec → RecordType
  | .serializedStreamHeader .. => .SerializedStreamHeader
  | .classWithId .. => .ClassWithId
  | .systemClassWithMembers .. => .SystemClassWithMembers
  | .classWithMembers .. => .ClassWithMembers
  | .systemClassWithMembersAndTypes .. => .SystemClassWithMembersAndTypes
  | .classWithMembersAndTypes .. => .ClassWithMembersAndTypes
  | .binaryObjectString .. => .BinaryObjectString
  | .binaryArray .. => .BinaryArray
  | .memberPrimitiveTyped .. => .MemberPrimitiveTyped
  | .memberReference .. => .MemberReference
  | .objectNull => .ObjectNull
  | .messageEnd => .MessageEnd
  | .binaryLibrary .. => .BinaryLibrary
  | .objectNullMultiple256 .. => .ObjectNullMultiple256
  | .objectNullMultiple .. => .ObjectNullMultiple
  | .arraySinglePrimitive .. => .ArraySinglePrimitive
  | .arraySingleObject .. => .ArraySingleObject
  | .arraySingleString .. => .ArraySingleString

/-- `record["RecordTypeEnum"] == "MessageEnd"`. -/
def Rec.isMessageEnd : Rec → Bool
  | .messageEnd => true
  | _ => false

/-- An entry of `NetSerializer.records` during decode: either a finished
record, or the `{"__temp_record": ...}` placeholder pushed by
`handle_class_with_members_and_types`.  The placeholder is pushed before
the class's values are read (`tempOpen`, holding the keys present at that
moment) and — since the wrapped dict is the record itself, mutated in
place — it holds the finished record once the values have been read
(`tempClosed`). -/
inductive SEntry where
  | finished (r : Rec)
  | tempOpen (classInfo : ClassInfo) (memberTypeInfo : MemberTypeInfo)
      (libraryId : Option Int)
  | tempClosed (r : Rec)
  deriving Repr

/-- `"__temp_record" in r`: true for placeholder entries. -/
def SEntry.isTemp : SEntry → Bool
  | .finished _ => false
  | _ => true

end Udlg

namespace Udlg

/-- Result of `get_parent_by_object_id` as consumed by
`read_write_class_values`: `none` — no dict with a matching `ObjectId` in
this subtree; `some none` — the first match's parent is a list or a dict
without both `ClassInfo` and `MemberTypeInfo` keys, so
`parent["ClassInfo"]["MemberCount"]` / `parent["MemberTypeInfo"]` raises
(`TypeError` / `KeyError`); `some (some (ci, mti))` — the first match is a
`ClassInfo` dict whose parent record carries `MemberTypeInfo`. -/
abbrev MetaHit := Option (Option (ClassInfo × MemberTypeInfo))

/-- First-of for the depth-first search. -/
def MetaHit.orElse (a b : MetaHit) : MetaHit :=
  match a with
  | some h => some h
  | none => b

mutual

/-- Depth-first search of one record dict, visiting its keys in insertion
order, for the first nested dict with `ObjectId == t` (the record dict
itself included).  A record dict found inside a `Values` list has the list
as its parent, hence `some none`; a matching `ClassInfo` has the record as
its parent, usable when that record has a `MemberTypeInfo` key; a matching
`ArrayInfo` has the array record (no `ClassInfo` key) as its parent, hence
`some none`. -/
def searchRec (t : Int) : Rec → MetaHit
  | .serializedStreamHeader _ _ _ _ => none
  | .classWithId o _ vs => if o = t then some none else searchMValues t vs
  | .systemClassWithMembers ci => if ci.objectId = t then some none else none
  | .classWithMembers ci _ => if ci.objectId = t then some none else none
  | .systemClassWithMembersAndTypes ci mti vs =>
    if ci.objectId = t then some (some (ci, mti)) else searchMValues t vs
  | .classWithMembersAndTypes ci mti _ vs =>
    if ci.objectId = t then some (some (ci, mti)) else searchMValues t vs
  | .binaryObjectString o _ => if o = t then some none else none
  | .binaryArray o _ _ _ _ _ _ vs => if o = t then some none else searchRecs t vs
  | .memberPrimitiveTyped _ _ => none
  | .memberReference _ => none
  | .objectNull => none
  | .messageEnd => none
  | .binaryLibrary _ _ => none
  | .objectNullMultiple256 _ => none
  | .objectNullMultiple _ => none
  | .arraySinglePrimitive o _ _ _ => if o = t then some none else none
  | .arraySingleObject o _ vs => if o = t then some none else searchRecs t vs
  | .arraySingleString o _ vs => if o = t then some none else searchRecs t vs

/-- Search of a `Values` list of element records, in order. -/
def searchRecs (t : Int) : List Rec → MetaHit
  | [] => none
  | r :: rs => MetaHit.orElse (searchRec t r) (searchRecs t rs)

/-- Search of a class's `Values` list: primitive member values contain no
dict with an `ObjectId` key (a `DateTime` dict has only `Kind`/`ticks`). -/
def searchMValues (t : Int) : List MValue → MetaHit
  | [] => none
  | .prim _ :: vs => searchMValues t vs
  | .record r :: vs => MetaHit.orElse (searchRec t r) (searchMValues t vs)

end

/-- Search of the whole `self.records` list: finished records and
placeholders in order.  An open placeholder exposes exactly the keys
present when it was pushed (`ClassInfo`, `MemberTypeInfo`, optionally
`LibraryId`); a closed one is the finished record. -/
def searchStore (t : Int) : List SEntry → MetaHit
  | [] => none
  | .finished r :: es => MetaHit.orElse (searchRec t r) (searchStore t es)
  | .tempOpen ci mti _ :: es =>
    MetaHit.orElse (if ci.objectId = t then some (some (ci, mti)) else none)
      (searchStore t es)
  | .tempClosed r :: es => MetaHit.orElse (searchRec t r) (searchStore t es)

end Udlg

namespace Udlg

/-- The mutable state of a `NetSerializer` during decode: the remaining
input bytes (`self.stream`), the shared record list (`self.records`), the
object index (`self.objects`) and the reference list (`self.references`). -/
structure DecSt where
  input : Bytes
  store : List SEntry
  objects : List (Int × Rec)
  references : List Int
  deriving Repr

/-- The decode computation: state in, error or value-and-state out. -/
def DecM (α : Type) : Type := DecSt → Except DErr (α × DecSt)

instance : Monad DecM where
  pure a := fun s => .ok (a, s)
  bind m f := fun s =>
    match m s with
    | .ok (a, s1) => f a s1
    | .error e => .error e

/-- Raise a decode error. -/
def throwD {α : Type} (e : DErr) : DecM α := fun _ => .error e

/-- `NetSerializer.read(size)`: take exactly `size` bytes or `EOFError`. -/
def readB (size : Nat) : DecM Bytes := fun s =>
  match s with
  | ⟨inp, store, objects, references⟩ =>
    if size ≤ inp.length then
      .ok (inp.take size, ⟨inp.drop size, store, objects, references⟩)
    else .error .eofError

/-- Python `dict` assignment `self.objects[key] = rec`: overwrite in place
or append, preserving insertion order. -/
def objInsert (key : Int) (r : Rec) : List (Int × Rec) → List (Int × Rec)
  | [] => [(key, r)]
  | (k, v) :: rest =>
    if k = key then (k, r) :: rest else (k, v) :: objInsert key r rest

/-- Record the object under its id (`self.objects[...] = class_record`). -/
def storeObject (key : Int) (r : Rec) : DecM Unit := fun s =>
  match s with
  | ⟨inp, store, objects, references⟩ =>
    .ok ((), ⟨inp, store, objInsert key r objects, references⟩)

/-- `self.references.append(record_data)` (only the `IdRef` matters). -/
def pushReference (idRef : Int) : DecM Unit := fun s =>
  match s with
  | ⟨inp, store, objects, references⟩ =>
    .ok ((), ⟨inp, store, objects, references ++ [idRef]⟩)

/-- `self.records.append(...)`, returning the index of the new entry. -/
def pushStoreEntry (e : SEntry) : DecM Nat := fun s =>
  match s with
  | ⟨inp, store, objects, references⟩ =>
    .ok (store.length, ⟨inp, store ++ [e], objects, references⟩)

/-- Close the placeholder at `idx`: the wrapped dict is the record itself,
so once `class_record["Values"]` is assigned the placeholder holds the
finished record. -/
def closeStoreEntry (idx : Nat) (r : Rec) : DecM Unit := fun s =>
  match s with
  | ⟨inp, store, objects, references⟩ =>
    .ok ((), ⟨inp, store.set idx (.tempClosed r), objects, references⟩)

/-- `get_parent_by_object_id(metadata_id, self.records)` followed by the
`["ClassInfo"]["MemberCount"]` / `["MemberTypeInfo"]` accesses. -/
def resolveMetadata (metadataId : Int) : DecM (ClassInfo × MemberTypeInfo) := fun s =>
  match searchStore metadataId s.store with
  | some (some meta) => .ok (meta, s)
  | _ => .error .unresolvedMetadata

/-- Python list subscription `xs[i]`, raising `IndexError` out of range. -/
def listIdxD {α : Type} (l : List α) (i : Nat) : DecM α := fun s =>
  match l[i]? with
  | some a => .ok (a, s)
  | none => .error .indexError

/-- `read_write_primitive(PrimitiveType.Byte)`. -/
def readByteP : DecM Nat := do
  let bs ← readB 1
  match bs with
  | [b] => pure b
  | _ => throwD .eofError

/-- Fixed-width unsigned little-endian read (`<B <H <I <Q`). -/
def readUIntP (w : Nat) : DecM Int := do
  let bs ← readB w
  pure (natFromLE bs : Int)

/-- Fixed-width signed little-endian read (`<b <h <i <q`). -/
def readIntP (w : Nat) : DecM Int := do
  let bs ← readB w
  pure (toSigned w (natFromLE bs))

/-- `read_write_7bit_encoded_int` (read mode). -/
def read7bit : DecM Nat := fun s =>
  match s with
  | ⟨inp, store, objects, references⟩ =>
    match read7bitCore inp 0 0 with
    | .ok (n, rest) => .ok (n, ⟨rest, store, objects, references⟩)
    | .error e => .error e

/-- `read_write_string` (read mode): 7-bit length, then UTF-8 bytes. -/
def readString : DecM Bytes := do
  let len ← read7bit
  let bs ← readB len
  if utf8Valid bs then pure bs else throwD .invalidUtf8

/-- `read_write_datetime` (read mode): an `Int64` whose low two bits carry
the `DateTimeKind` and are masked out of the tick count (`ticks & ~0x03`,
i.e. `Int.land` with `-4`). -/
def readDatetime : DecM PrimValue := do
  let v ← readIntP 8
  let kind := if Int.land v 1 ≠ 0 then DtKind.utc
    else if Int.land v 2 ≠ 0 then DtKind.local
    else DtKind.unspecified
  pure (.pDateTime kind (Int.land v (-4)))

/-- `read_write_primitive` (read mode), per the `type_map` and the
special-cased kinds.  `Null` falls through to
`ValueError("Unsupported primitive type")`. -/
def readPrimitive : PrimitiveType → DecM PrimValue
  | .Boolean => do
    let b ← readByteP
    pure (.pBool (b ≠ 0))
  | .Byte => do pure (.pInt (← readUIntP 1))
  | .SByte => do pure (.pInt (← readIntP 1))
  | .Int16 => do pure (.pInt (← readIntP 2))
  | .UInt16 => do pure (.pInt (← readUIntP 2))
  | .Int32 => do pure (.pInt (← readIntP 4))
  | .UInt32 => do pure (.pInt (← readUIntP 4))
  | .Int64 => do pure (.pInt (← readIntP 8))
  | .UInt64 => do pure (.pInt (← readUIntP 8))
  | .Single => do pure (.pF32 (← readB 4))
  | .Double => do pure (.pF64 (← readB 8))
  | .Char => do pure (.pStr (← readString))
  | .String => do pure (.pStr (← readString))
  | .Decimal => do pure (.pStr (← readString))
  | .DateTime => readDatetime
  | .TimeSpan => do pure (.pInt (← readIntP 8))
  | .Null => throwD .unsupportedPrimitive

/-- `read_write_enum` (read mode), for each enum class in use. -/
def readPrimitiveTypeEnum : DecM PrimitiveType := do
  match PrimitiveType.ofNat? (← readByteP) with
  | some pt => pure pt
  | none => throwD .badEnumValue

def readBinaryTypeEnum : DecM BinaryType := do
  match BinaryType.ofNat? (← readByteP) with
  | some bt => pure bt
  | none => throwD .badEnumValue

def readBinaryArrayTypeEnum : DecM BinaryArrayType := do
  match BinaryArrayType.ofNat? (← readByteP) with
  | some t => pure t
  | none => throwD .badEnumValue

def readRecordTypeEnum : DecM RecordType := do
  match RecordType.ofNat? (← readByteP) with
  | some t => pure t
  | none => throwD .badEnumValue

/-- `read_write_class_type_info` (read mode). -/
def readClassTypeInfo : DecM ExtraInfo := do
  let tn ← readString
  let lib ← readIntP 4
  pure (.classTypeInfo tn lib)

/-- `read_write_binary_type_info` (read mode). -/
def readBinaryTypeInfo : BinaryType → DecM ExtraInfo
  | .Primitive => do pure (.primType (← readPrimitiveTypeEnum))
  | .PrimitiveArray => do pure (.primType (← readPrimitiveTypeEnum))
  | .SystemClass => do pure (.sysClass (← readString))
  | .Class => readClassTypeInfo
  | .String => pure .noInfo
  | .StringArray => pure .noInfo
  | .Object => pure .noInfo
  | .ObjectArray => throwD .badEnumValue

/-- Read `n` member-name strings (`range(member_count)`). -/
def readStrings : Nat → DecM (List Bytes)
  | 0 => pure []
  | n + 1 => do
    let s ← readString
    let rest ← readStrings n
    pure (s :: rest)

/-- `read_write_class_info` (read mode). -/
def readClassInfo : DecM ClassInfo := do
  let objectId ← readIntP 4
  let name ← readString
  let memberCount ← readIntP 4
  let memberNames ← readStrings memberCount.toNat
  pure ⟨objectId, name, memberCount, memberNames⟩

/-- The `BinaryTypeEnums` pass of `read_write_member_type_info`. -/
def readBinaryTypeEnums : Nat → DecM (List BinaryType)
  | 0 => pure []
  | n + 1 => do
    let bt ← readBinaryTypeEnum
    let rest ← readBinaryTypeEnums n
    pure (bt :: rest)

/-- The `AdditionalInfos` pass of `read_write_member_type_info`. -/
def readAdditionalInfos : List BinaryType → DecM (List ExtraInfo)
  | [] => pure []
  | bt :: bts => do
    let e ← readBinaryTypeInfo bt
    let rest ← readAdditionalInfos bts
    pure (e :: rest)

/-- `read_write_member_type_info` (read mode): all `BinaryTypeEnums`
first, then the per-member extras in the same order. -/
def readMemberTypeInfo (count : Nat) : DecM MemberTypeInfo := do
  let bts ← readBinaryTypeEnums count
  let extras ← readAdditionalInfos bts
  pure ⟨bts, extras⟩

/-- `read_write_array_info` (read mode). -/
def readArrayInfo : DecM (Int × Int) := do
  let objectId ← readIntP 4
  let lengthVal ← readIntP 4
  pure (objectId, lengthVal)

/-- `range(rank)` reads of `Int32` lengths / lower bounds. -/
def readInt32List : Nat → DecM (List Int)
  | 0 => pure []
  | n + 1 => do
    let v ← readIntP 4
    let rest ← readInt32List n
    pure (v :: rest)

/-- `range(array_info["Length"])` reads of primitive array elements. -/
def readPrimList (pt : PrimitiveType) : Nat → DecM (List PrimValue)
  | 0 => pure []
  | n + 1 => do
    let v ← readPrimitive pt
    let rest ← readPrimList pt n
    pure (v :: rest)

end Udlg

namespace Udlg

/-- `handle_serialized_stream_header` (read mode). -/
def readSerializedStreamHeaderR : DecM Rec := do
  let rootId ← readIntP 4
  let headerId ← readIntP 4
  let majorVersion ← readIntP 4
  let minorVersion ← readIntP 4
  pure (.serializedStreamHeader rootId headerId majorVersion minorVersion)

/-- `handle_binary_object_string` (read mode).  Note: the string record is
*not* entered into `self.objects`. -/
def readBinaryObjectStringR : DecM Rec := do
  let objectId ← readIntP 4
  let value ← readString
  pure (.binaryObjectString objectId value)

/-- `handle_system_class_with_members` (read mode): metadata only. -/
def readSystemClassWithMembersR : DecM Rec := do
  let ci ← readClassInfo
  pure (.systemClassWithMembers ci)

/-- `handle_class_with_members` (read mode): metadata plus `LibraryId`. -/
def readClassWithMembersR : DecM Rec := do
  let ci ← readClassInfo
  let libraryId ← readIntP 4
  pure (.classWithMembers ci libraryId)

/-- `handle_member_primitive_typed` (read mode). -/
def readMemberPrimitiveTypedR : DecM Rec := do
  let pt ← readPrimitiveTypeEnum
  let v ← readPrimitive pt
  pure (.memberPrimitiveTyped pt v)

/-- `handle_member_reference` (read mode). -/
def readMemberReferenceR : DecM Rec := do
  let idRef ← readIntP 4
  pushReference idRef
  pure (.memberReference idRef)

/-- `handle_binary_library` (read mode). -/
def readBinaryLibraryR : DecM Rec := do
  let libraryId ← readIntP 4
  let libraryName ← readString
  pure (.binaryLibrary libraryId libraryName)

/-- `handle_object_null_multiple_256` (read mode). -/
def readObjectNullMultiple256R : DecM Rec := do
  let c ← readByteP
  pure (.objectNullMultiple256 c)

/-- `handle_object_null_multiple` (read mode): the count is a signed `Int32`. -/
def readObjectNullMultipleR : DecM Rec := do
  let c ← readIntP 4
  pure (.objectNullMultiple c)

/-- `handle_array_single_primitive` (read mode): `Length` raw primitives,
no null-run expansion (`range` of a negative length is empty). -/
def readArraySinglePrimitiveR : DecM Rec := do
  let (objectId, lengthVal) ← readArrayInfo
  let pt ← readPrimitiveTypeEnum
  let values ← readPrimList pt lengthVal.toNat
  pure (.arraySinglePrimitive objectId lengthVal pt values)

/-- The fields of a `BinaryArray` record read before its shape check. -/
structure BArrayHeader where
  objectId : Int
  arrayType : BinaryArrayType
  rank : Int
  lengths : List Int
  lowerBounds : List Int
  typeEnum : BinaryType
  additionalTypeInfo : ExtraInfo
  deriving Repr

/-- The non-recursive field-reading phase of `handle_binary_array` (read
mode): `ObjectId`, `BinaryArrayTypeEnum`, `rank`, `rank` lengths, `rank`
lower bounds for `Offset` kinds, the element `BinaryType` and its extra
info — everything read before the shape check. -/
def readBinaryArrayHeader : DecM BArrayHeader := do
  let objectId ← readIntP 4
  let bat ← readBinaryArrayTypeEnum
  let rank ← readIntP 4
  let lengths ← readInt32List rank.toNat
  let lowerBounds ← if bat.endsWithOffset then readInt32List rank.toNat else pure []
  let bt ← readBinaryTypeEnum
  let extra ← readBinaryTypeInfo bt
  pure ⟨objectId, bat, rank, lengths, lowerBounds, bt, extra⟩

mutual

/-- `read_write_record` (read mode): one `RecordType` byte, then the
per-kind handler (`process_record`).  `MethodCall`/`MethodReturn` have no
handler and raise `ValueError`. -/
def readRecord : Nat → DecM Rec
  | 0 => throwD .outOfFuel
  | f + 1 => do
    let rt ← readRecordTypeEnum
    match rt with
    | .SerializedStreamHeader => readSerializedStreamHeaderR
    | .ClassWithId => readClassWithId f
    | .SystemClassWithMembers => readSystemClassWithMembersR
    | .ClassWithMembers => readClassWithMembersR
    | .SystemClassWithMembersAndTypes => readClassWithMembersAndTypes f true
    | .ClassWithMembersAndTypes => readClassWithMembersAndTypes f false
    | .BinaryObjectString => readBinaryObjectStringR
    | .BinaryArray => readBinaryArray f
    | .MemberPrimitiveTyped => readMemberPrimitiveTypedR
    | .MemberReference => readMemberReferenceR
    | .ObjectNull => pure .objectNull
    | .MessageEnd => pure .messageEnd
    | .BinaryLibrary => readBinaryLibraryR
    | .ObjectNullMultiple256 => readObjectNullMultiple256R
    | .ObjectNullMultiple => readObjectNullMultipleR
    | .ArraySinglePrimitive => readArraySinglePrimitiveR
    | .ArraySingleObject => readArraySingle f false
    | .ArraySingleString => readArraySingle f true
    | .MethodCall => throwD .unsupportedRecord
    | .MethodReturn => throwD .unsupportedRecord
termination_by structural fuel => fuel

/-- `handle_class_with_id` (read mode): the member values are typed by the
`MemberTypeInfo` of the store record whose `ClassInfo.ObjectId` equals
`MetadataId` (resolved through `get_parent_by_object_id`), and the record
is then indexed under its own `ObjectId`. -/
def readClassWithId : Nat → DecM Rec
  | 0 => throwD .outOfFuel
  | f + 1 => do
    let objectId ← readIntP 4
    let metadataId ← readIntP 4
    let meta ← resolveMetadata metadataId
    let values ← readClassValuesGo f meta.2 0 meta.1.memberCount.toNat
    let r := Rec.classWithId objectId metadataId values
    storeObject objectId r
    pure r
termination_by structural fuel => fuel

/-- `handle_class_with_members_and_types` (read mode), shared with the
system variant: `ClassInfo`, `MemberTypeInfo`, `LibraryId` for the
non-system variant, then a `{"__temp_record": ...}` placeholder is pushed
before the member values are read so nested references resolve; finally
the record is indexed under `ClassInfo.ObjectId`. -/
def readClassWithMembersAndTypes : Nat → Bool → DecM Rec
  | 0, _ => throwD .outOfFuel
  | f + 1, system => do
    let ci ← readClassInfo
    let mti ← readMemberTypeInfo ci.memberCount.toNat
    if system then do
      let idx ← pushStoreEntry (.tempOpen ci mti none)
      let values ← readClassValuesGo f mti 0 ci.memberCount.toNat
      let r := Rec.systemClassWithMembersAndTypes ci mti values
      closeStoreEntry idx r
      storeObject ci.objectId r
      pure r
    else do
      let libraryId ← readIntP 4
      let idx ← pushStoreEntry (.tempOpen ci mti (some libraryId))
      let values ← readClassValuesGo f mti 0 ci.memberCount.toNat
      let r := Rec.classWithMembersAndTypes ci mti libraryId values
      closeStoreEntry idx r
      storeObject ci.objectId r
      pure r
termination_by structural fuel => fuel

/-- The member loop of `read_write_class_values` (read mode): exactly
`member_count` iterations, one member value per iteration (there is *no*
null-run handling here), each typed by `BinaryTypeEnums[i]` /
`AdditionalInfos[i]`. -/
def readClassValuesGo : Nat → MemberTypeInfo → Nat → Nat → DecM (List MValue)
  | 0, _, _, _ => throwD .outOfFuel
  | f + 1, mti, idx, total =>
    if idx < total then do
      let bt ← listIdxD mti.btypes idx
      let extra ← listIdxD mti.extras idx
      let v ← readValue f bt extra
      let rest ← readClassValuesGo f mti (idx + 1) total
      pure (v :: rest)
    else pure []
termination_by structural fuel => fuel

/-- `read_write_value` (read mode): a `Primitive` member is read with
`read_write_primitive` (its extra must be a primitive-kind name, else
`PrimitiveType[...]` raises), every other kind is a nested record. -/
def readValue : Nat → BinaryType → ExtraInfo → DecM MValue
  | 0, _, _ => throwD .outOfFuel
  | f + 1, bt, extra =>
    match bt with
    | .Primitive =>
      match extra with
      | .primType pt => do pure (.prim (← readPrimitive pt))
      | _ => throwD .badPrimitiveName
    | _ => do pure (.record (← readRecord f))
termination_by structural fuel => fuel

/-- The element loop shared verbatim by `handle_binary_array` and
`read_write_array_values`: read records while the slot cursor `i` is below
the declared count; a null-run record advances `i` by its `NullCount`
(possibly 0 or negative), any other record by 1; landing strictly past the
count raises `ValueError("Too many records in array.")`. -/
def readArrayValuesGo : Nat → Int → Int → DecM (List Rec)
  | 0, _, _ => throwD .outOfFuel
  | f + 1, lengthVal, i =>
    if i < lengthVal then do
      let r ← readRecord f
      let i2 := i + r.slotContribution
      if i2 > lengthVal then throwD .arrayOverrun
      else do
        let rest ← readArrayValuesGo f lengthVal i2
        pure (r :: rest)
    else pure []
termination_by structural fuel => fuel

/-- `handle_binary_array` (read mode): the header fields, the shape check
(`NotImplementedError` for an `Offset` kind or `rank > 1`), `cells =
lengths[0]` (an `IndexError` on an empty list), then the element loop. -/
def readBinaryArray : Nat → DecM Rec
  | 0 => throwD .outOfFuel
  | f + 1 => do
    let hdr ← readBinaryArrayHeader
    if hdr.arrayType.endsWithOffset || hdr.rank > 1 then throwD .unsupportedArrayShape
    else
      match hdr.lengths with
      | [] => throwD .indexError
      | cells :: _ => do
        let values ← readArrayValuesGo f cells 0
        pure (.binaryArray hdr.objectId hdr.arrayType hdr.rank hdr.lengths
          hdr.lowerBounds hdr.typeEnum hdr.additionalTypeInfo values)
termination_by structural fuel => fuel

/-- `handle_array_single` (read mode), used for both `ArraySingleObject`
and `ArraySingleString`. -/
def readArraySingle : Nat → Bool → DecM Rec
  | 0, _ => throwD .outOfFuel
  | f + 1, stringKind => do
    let (objectId, lengthVal) ← readArrayInfo
    let values ← readArrayValuesGo f lengthVal 0
    pure (if stringKind then .arraySingleString objectId lengthVal values
          else .arraySingleObject objectId lengthVal values)
termination_by structural fuel => fuel

end

end Udlg

namespace Udlg

/-!
Modelled from the spec: the zlib library used by `compress_gzip_zlib` /
`decompress_gzip_zlib` is an external dependency, not part of this
repository.  Per §4.5 of the spec it produces/consumes gzip framing
(window bits 15 + 16): a 10-byte header `1F 8B CM FLG MTIME(4) XFL OS`,
a DEFLATE body, and a CRC-32 + ISIZE trailer; decompression does not
enforce the XFL/OS bytes.  The DEFLATE body is modelled with stored
(uncompressed) blocks — a valid DEFLATE encoding; the claims under test
(the XFL/OS splice and the compress/decompress round-trip) do not depend
on the block encoding chosen by the compressor.
-/

/-- One CRC-32 shift step (reflected polynomial `0xEDB88320`). -/
def crc32Step (crc : Nat) : Nat :=
  if crc % 2 = 1 then (crc / 2) ^^^ 0xEDB88320 else crc / 2

/-- Fold one byte into a CRC-32 accumulator. -/
def crc32Byte (crc b : Nat) : Nat :=
  Nat.repeat crc32Step 8 (crc ^^^ b)

def crc32Aux : Bytes → Nat → Nat
  | [], crc => crc
  | b :: rest, crc => crc32Aux rest (crc32Byte crc b)

/-- CRC-32 of a byte string (as in the gzip trailer). -/
def crc32 (bs : Bytes) : Nat := crc32Aux bs 0xFFFFFFFF ^^^ 0xFFFFFFFF

/-- DEFLATE stored-block encoding: `BFINAL` flag byte (`BTYPE=00`), `LEN`
little-endian, `NLEN = LEN ^ 0xFFFF`, then the raw bytes; chunked at the
65535-byte stored-block limit. -/
def deflateStoredGo : Nat → Bytes → Bytes
  | 0, _ => []
  | f + 1, d =>
    if d.length ≤ 65535 then
      1 :: natToLE 2 d.length ++ natToLE 2 (65535 - d.length) ++ d
    else
      0 :: natToLE 2 65535 ++ natToLE 2 0 ++ d.take 65535 ++
        deflateStoredGo f (d.drop 65535)

def deflateStored (d : Bytes) : Bytes := deflateStoredGo (d.length + 1) d

/-- Inflate a sequence of stored blocks, returning the data and the
remaining bytes (the trailer).  Only `BTYPE=00` blocks are produced by the
model compressor; other block types are out of the model. -/
def inflateStored : Nat → Bytes → Except Unit (Bytes × Bytes)
  | 0, _ => .error ()
  | f + 1, bf :: l1 :: l2 :: n1 :: n2 :: rest =>
    let len := l1 + 256 * l2
    let nlen := n1 + 256 * n2
    if bf ≤ 1 ∧ nlen = 65535 - len ∧ len ≤ rest.length then
      let data := rest.take len
      if bf = 1 then .ok (data, rest.drop len)
      else
        match inflateStored f (rest.drop len) with
        | .ok (more, trailer) => .ok (data ++ more, trailer)
        | .error e => .error e
    else .error ()
  | _, _ => .error ()

/-- The raw gzip stream produced by the model zlib compressor:
`1F 8B`, `CM=8`, `FLG=0`, `MTIME=0`, then `XFL`/`OS` (zlib writes `0` for
the default level and its host OS code — the exact values are irrelevant,
the caller overwrites them), body, CRC-32, ISIZE. -/
def gzipRaw (d : Bytes) : Bytes :=
  [0x1F, 0x8B, 8, 0, 0, 0, 0, 0, 0, 3] ++ deflateStored d ++
    natToLE 4 (crc32 d) ++ natToLE 4 (d.length % 2 ^ 32)

/-- `compress_gzip_zlib`: gzip-compress, then splice `04 00` over the
XFL/OS bytes (offsets 8 and 9):
`compressed_data[:8] + b"\x04\x00" + compressed_data[10:]`. -/
def compressGzipZlib (d : Bytes) : Bytes :=
  let c := gzipRaw d
  c.take 8 ++ [0x04, 0x00] ++ c.drop 10

/-- `decompress_gzip_zlib`: parse the gzip header (the magic, `CM` and
`FLG` are checked; `MTIME`, `XFL` and `OS` are skipped without being
enforced), inflate, and check the CRC-32/ISIZE trailer. -/
def decompressGzipZlib (data : Bytes) : Except Unit Bytes :=
  match data with
  | b0 :: b1 :: cm :: flg :: _ :: _ :: _ :: _ :: _ :: _ :: rest =>
    if b0 = 0x1F ∧ b1 = 0x8B ∧ cm = 8 ∧ flg = 0 then
      match inflateStored (rest.length + 1) rest with
      | .ok (d, trailer) =>
        if trailer = natToLE 4 (crc32 d) ++ natToLE 4 (d.length % 2 ^ 32) then
          .ok d
        else .error ()
      | .error e => .error e
    else .error ()
  | _ => .error ()

/-- The result of `UDLG.parse`. -/
structure UdlgData where
  header : Bytes
  records : List Rec
  compressed : Bool
  deriving Repr

/-- The per-iteration store maintenance of the `UDLG.parse` loop:
`self.records = [r for r in self.records if "__temp_record" not in r]`
followed by `self.records.append(record)`. -/
def stripAndAppend (r : Rec) : DecM Unit := fun s =>
  match s with
  | ⟨inp, store, objects, references⟩ =>
    .ok ((), ⟨inp, store.filter (fun e => !e.isTemp) ++ [.finished r], objects, references⟩)

/-- The record loop of `UDLG.parse`: read, strip placeholders, append,
stop after a `MessageEnd` record. -/
def parseLoop : Nat → Nat → DecM Unit
  | 0, _ => throwD .outOfFuel
  | f + 1, recFuel => do
    let r ← readRecord recFuel
    stripAndAppend r
    if r.isMessageEnd then pure () else parseLoop f recFuel

/-- The finished records of the store (after the loop every entry is a
finished record; placeholders were stripped). -/
def storeRecords (es : List SEntry) : List Rec :=
  es.filterMap fun e =>
    match e with
    | .finished r => some r
    | _ => none

/-- Run the record loop over a payload, returning the parse result and the
final serializer state.  The fuel is an upper bound on the recursion the
Python code performs; every fuel step of the decoder consumes input, so
any sufficiently large bound is equivalent. -/
def runParseLoop (header payload : Bytes) (compressed : Bool) :
    Except DErr (UdlgData × DecSt) :=
  let fuel := 4 * payload.length + 16
  match parseLoop fuel fuel ⟨payload, [], [], []⟩ with
  | .ok (_, s) => .ok (⟨header, storeRecords s.store, compressed⟩, s)
  | .error e => .error e

/-- `UDLG.parse`: read the 24-byte header verbatim, peek two bytes for the
gzip magic `1F 8B` (decompressing the remainder if found), then loop
reading records until `MessageEnd`. -/
def udlgParse (b : Bytes) : Except DErr (UdlgData × DecSt) :=
  if 24 ≤ b.length then
    let header := b.take 24
    let rest := b.drop 24
    match rest with
    | 0x1F :: 0x8B :: _ =>
      match decompressGzipZlib rest with
      | .ok payload => runParseLoop header payload true
      | .error _ => .error .decompressFailed
    | _ => runParseLoop header rest false
  else .error .eofError

/-- Failures of the `decode` CLI command. -/
inductive DecodeErr where
  /-- `"Skipping ...: not a valid UDLG file (signature mismatch)."` +
  `typer.Exit(code=1)`. -/
  | badSignature
  /-- An exception propagating out of `UDLG.parse`. -/
  | parseFailed (e : DErr)
  deriving DecidableEq

/-- The `decode` command on a single file's bytes: read the first 16
bytes, reject unless they equal `UDLG_SIGNATURE`, then parse. -/
def decodeCommand (b : Bytes) : Except DecodeErr (UdlgData × DecSt) :=
  if b.take 16 = udlgSignature then
    match udlgParse b with
    | .ok v => .ok v
    | .error e => .error (.parseFailed e)
  else .error .badSignature

end Udlg

namespace Udlg

/-- Errors raised while encoding (each names the Python exception). -/
inductive WErr where
  /-- `AttributeError: 'str' object has no attribute 'value'` — raised by
  `read_write_enum` in write mode when handed `record["PrimitiveTypeEnum"]`
  (the kind's *name* string) instead of the enum member; this happens in
  `handle_array_single_primitive`'s write path. -/
  | enumNameAttributeError
  /-- `struct.error` / `TypeError` / `AttributeError` when packing a value
  whose shape or range does not fit the format character. -/
  | packError
  /-- `IndexError` from `BinaryTypeEnums[i]`. -/
  | writeIndexError
  /-- Metadata resolution failure while writing `ClassWithId` values. -/
  | writeUnresolvedMetadata
  /-- `ValueError("Unsupported primitive type: ...")` in write mode. -/
  | writeUnsupportedPrimitive
  /-- `ValueError("Unexpected binary_type: ...")` in write mode. -/
  | writeBadTypeInfo
  /-- Artificial fuel bound (see `DErr.outOfFuel`). -/
  | outOfFuelW
  deriving DecidableEq, Repr

/-- Encoder state: output bytes so far, the record list used for metadata
lookups (`records=data["Records"]`), and the reference list. -/
structure EncSt where
  out : Bytes
  store : List SEntry
  references : List Int
  deriving Repr

/-- The encode computation. -/
def WriteM (α : Type) : Type := EncSt → Except WErr (α × EncSt)

instance : Monad WriteM where
  pure a := fun s => .ok (a, s)
  bind m f := fun s =>
    match m s with
    | .ok (a, s1) => f a s1
    | .error e => .error e

def throwW {α : Type} (e : WErr) : WriteM α := fun _ => .error e

/-- Python list subscription `xs[i]`, raising `IndexError` out of range. -/
def listIdxW {α : Type} (l : List α) (i : Nat) : WriteM α := fun s =>
  match l[i]? with
  | some a => .ok (a, s)
  | none => .error .writeIndexError

/-- `self.write(data)`. -/
def emit (bs : Bytes) : WriteM Unit := fun s =>
  match s with
  | ⟨out, store, references⟩ =>
    .ok ((), ⟨out ++ bs, store, references⟩)

def pushReferenceW (idRef : Int) : WriteM Unit := fun s =>
  match s with
  | ⟨out, store, references⟩ =>
    .ok ((), ⟨out, store, references ++ [idRef]⟩)

/-- Write-side `get_parent_by_object_id` over `data["Records"]`. -/
def resolveMetadataW (metadataId : Int) : WriteM (ClassInfo × MemberTypeInfo) := fun s =>
  match searchStore metadataId s.store with
  | some (some meta) => .ok (meta, s)
  | _ => .error .writeUnresolvedMetadata

/-- `struct.pack("<B", v)`: one unsigned byte, range-checked. -/
def writeByteW (v : Nat) : WriteM Unit :=
  if v < 256 then emit [v] else throwW .packError

/-- `struct.pack` of a signed little-endian integer of `w` bytes
(two's complement), range-checked. -/
def writeIntW (w : Nat) (v : Int) : WriteM Unit :=
  if -(2 ^ (8 * w - 1) : Int) ≤ v ∧ v < 2 ^ (8 * w - 1) then
    emit (natToLE w (v % 2 ^ (8 * w)).toNat)
  else throwW .packError

/-- `struct.pack` of an unsigned little-endian integer of `w` bytes. -/
def writeUIntW (w : Nat) (v : Int) : WriteM Unit :=
  if 0 ≤ v ∧ v < 2 ^ (8 * w) then
    emit (natToLE w v.toNat)
  else throwW .packError

/-- `read_write_7bit_encoded_int` (write mode). -/
def write7bitW (v : Nat) : WriteM Unit := emit (write7bitEncodedInt v)

/-- `read_write_string` (write mode): UTF-8 byte count as a 7-bit varint,
then the bytes (`b""` when the string is falsy). -/
def writeStringW (s : Bytes) : WriteM Unit := do
  write7bitW s.length
  emit s

/-- `read_write_datetime` (write mode): `ticks_val | kind` packed as
`Int64`, with `kind` 1 for UTC, 2 for Local, 0 otherwise. -/
def writeDatetimeW (kind : DtKind) (ticks : Int) : WriteM Unit :=
  let kindNum : Int :=
    match kind with
    | .utc => 1
    | .local => 2
    | .unspecified => 0
  writeIntW 8 (Int.lor ticks kindNum)

/-- `read_write_primitive` (write mode).  Decoded data always pairs each
kind with the value shape its read path produced; any other shape makes
`struct.pack` / `.encode` raise, modelled as `packError`. -/
def writePrimitiveW : PrimitiveType → PrimValue → WriteM Unit
  | .Boolean, .pBool b => emit [if b then 1 else 0]
  | .Byte, .pInt i => writeUIntW 1 i
  | .SByte, .pInt i => writeIntW 1 i
  | .Int16, .pInt i => writeIntW 2 i
  | .UInt16, .pInt i => writeUIntW 2 i
  | .Int32, .pInt i => writeIntW 4 i
  | .UInt32, .pInt i => writeUIntW 4 i
  | .Int64, .pInt i => writeIntW 8 i
  | .UInt64, .pInt i => writeUIntW 8 i
  | .Single, .pF32 raw => if raw.length = 4 then emit raw else throwW .packError
  | .Double, .pF64 raw => if raw.length = 8 then emit raw else throwW .packError
  | .Char, .pStr s => writeStringW s
  | .String, .pStr s => writeStringW s
  | .Decimal, .pStr s => writeStringW s
  | .DateTime, .pDateTime kind ticks => writeDatetimeW kind ticks
  | .TimeSpan, .pInt i => writeIntW 8 i
  | .Null, _ => throwW .writeUnsupportedPrimitive
  | _, _ => throwW .packError

/-- `read_write_class_type_info` (write mode). -/
def writeClassTypeInfoW (typeName : Bytes) (libraryId : Int) : WriteM Unit := do
  writeStringW typeName
  writeIntW 4 libraryId

/-- `read_write_binary_type_info` (write mode). -/
def writeBinaryTypeInfoW : BinaryType → ExtraInfo → WriteM Unit
  | .Primitive, .primType pt => writeByteW pt.val
  | .PrimitiveArray, .primType pt => writeByteW pt.val
  | .Primitive, _ => throwW .packError
  | .PrimitiveArray, _ => throwW .packError
  | .SystemClass, .sysClass tn => writeStringW tn
  | .SystemClass, _ => throwW .packError
  | .Class, .classTypeInfo tn lib => writeClassTypeInfoW tn lib
  | .Class, _ => throwW .packError
  | .String, _ => pure ()
  | .StringArray, _ => pure ()
  | .Object, _ => pure ()
  | .ObjectArray, _ => throwW .writeBadTypeInfo

/-- The member-name loop of `read_write_class_info` (write mode). -/
def writeStringsW : List Bytes → WriteM Unit
  | [] => pure ()
  | s :: rest => do
    writeStringW s
    writeStringsW rest

/-- `read_write_class_info` (write mode): `ObjectId`, `Name`,
`MemberCount`, then *all* of `MemberNames`. -/
def writeClassInfoW (ci : ClassInfo) : WriteM Unit := do
  writeIntW 4 ci.objectId
  writeStringW ci.name
  writeIntW 4 ci.memberCount
  writeStringsW ci.memberNames

end Udlg

namespace Udlg

/-- The `BinaryTypeEnums` pass of `read_write_member_type_info` (write). -/
def writeBinaryTypeEnumsW : List BinaryType → WriteM Unit
  | [] => pure ()
  | bt :: rest => do
    writeByteW bt.val
    writeBinaryTypeEnumsW rest

/-- The `AdditionalInfos` pass of `read_write_member_type_info` (write):
`enumerate(AdditionalInfos)` with `BinaryTypeEnums[i]` looked up per
index (`IndexError` when the lists disagree in length). -/
def writeAdditionalInfosW (bts : List BinaryType) : Nat → List ExtraInfo → WriteM Unit
  | _, [] => pure ()
  | i, e :: rest => do
    match bts[i]? with
    | some bt => writeBinaryTypeInfoW bt e
    | none => throwW .writeIndexError
    writeAdditionalInfosW bts (i + 1) rest

/-- `read_write_member_type_info` (write mode). -/
def writeMemberTypeInfoW (mti : MemberTypeInfo) : WriteM Unit := do
  writeBinaryTypeEnumsW mti.btypes
  writeAdditionalInfosW mti.btypes 0 mti.extras

/-- `read_write_array_info` (write mode). -/
def writeArrayInfoW (objectId lengthVal : Int) : WriteM Unit := do
  writeIntW 4 objectId
  writeIntW 4 lengthVal

/-- The lengths / lower-bounds loops of `handle_binary_array` (write). -/
def writeInt32ListW : List Int → WriteM Unit
  | [] => pure ()
  | v :: rest => do
    writeIntW 4 v
    writeInt32ListW rest

/-- The values loop of `handle_array_single_primitive` (write mode). -/
def writePrimListW (pt : PrimitiveType) : List PrimValue → WriteM Unit
  | [] => pure ()
  | v :: rest => do
    writePrimitiveW pt v
    writePrimListW pt rest

mutual

/-- `read_write_record` (write mode): the `RecordType` value byte, then
the per-kind handler in write mode. -/
def writeRecord : Nat → Rec → WriteM Unit
  | 0, _ => throwW .outOfFuelW
  | f + 1, r => do
    writeByteW r.recordType.val
    match r with
    | .serializedStreamHeader rootId headerId majorVersion minorVersion => do
      writeIntW 4 rootId
      writeIntW 4 headerId
      writeIntW 4 majorVersion
      writeIntW 4 minorVersion
    | .classWithId objectId metadataId values => do
      writeIntW 4 objectId
      writeIntW 4 metadataId
      -- read_write_class_values (write): no own MemberTypeInfo, so the
      -- metadata record is resolved from self.records.
      let meta ← resolveMetadataW metadataId
      writeClassValuesGoW f meta.2 0 values
    | .systemClassWithMembers ci => writeClassInfoW ci
    | .classWithMembers ci libraryId => do
      writeClassInfoW ci
      writeIntW 4 libraryId
    | .systemClassWithMembersAndTypes ci mti values => do
      writeClassInfoW ci
      writeMemberTypeInfoW mti
      writeClassValuesGoW f mti 0 values
    | .classWithMembersAndTypes ci mti libraryId values => do
      writeClassInfoW ci
      writeMemberTypeInfoW mti
      writeIntW 4 libraryId
      writeClassValuesGoW f mti 0 values
    | .binaryObjectString objectId value => do
      writeIntW 4 objectId
      writeStringW value
    | .binaryArray objectId bat rank lengths lowerBounds bt extra values => do
      writeIntW 4 objectId
      writeByteW bat.val
      writeIntW 4 rank
      writeInt32ListW lengths
      if bat.endsWithOffset then writeInt32ListW lowerBounds else pure ()
      writeByteW bt.val
      writeBinaryTypeInfoW bt extra
      writeRecListW f values
    | .memberPrimitiveTyped pt v => do
      writeByteW pt.val
      writePrimitiveW pt v
    | .memberReference idRef => do
      writeIntW 4 idRef
      pushReferenceW idRef
    | .objectNull => pure ()
    | .messageEnd => pure ()
    | .binaryLibrary libraryId libraryName => do
      writeIntW 4 libraryId
      writeStringW libraryName
    | .objectNullMultiple256 c => writeByteW c
    | .objectNullMultiple c => writeIntW 4 c
    | .arraySinglePrimitive objectId lengthVal _ _ => do
      writeArrayInfoW objectId lengthVal
      -- handle_array_single_primitive (write) passes
      -- record["PrimitiveTypeEnum"] — the *name string* — to
      -- read_write_enum, whose write branch evaluates `value.value`:
      -- AttributeError: 'str' object has no attribute 'value'.
      throwW .enumNameAttributeError
    | .arraySingleObject objectId lengthVal values => do
      writeArrayInfoW objectId lengthVal
      writeRecListW f values
    | .arraySingleString objectId lengthVal values => do
      writeArrayInfoW objectId lengthVal
      writeRecListW f values
termination_by structural fuel => fuel

/-- The values loop of `read_write_class_values` (write mode):
`enumerate(class_record["Values"])` with per-index lookups into the
`MemberTypeInfo` lists. -/
def writeClassValuesGoW : Nat → MemberTypeInfo → Nat → List MValue → WriteM Unit
  | 0, _, _, _ => throwW .outOfFuelW
  | _ + 1, _, _, [] => pure ()
  | f + 1, mti, i, v :: rest => do
    let bt ← listIdxW mti.btypes i
    let extra ← listIdxW mti.extras i
    writeValueW f bt extra v
    writeClassValuesGoW f mti (i + 1) rest
termination_by structural fuel => fuel

/-- `read_write_value` (write mode). -/
def writeValueW : Nat → BinaryType → ExtraInfo → MValue → WriteM Unit
  | 0, _, _, _ => throwW .outOfFuelW
  | _ + 1, .Primitive, .primType pt, .prim p => writePrimitiveW pt p
  | _ + 1, .Primitive, _, _ => throwW .packError
  | f + 1, _, _, .record r => writeRecord f r
  | _ + 1, _, _, .prim _ => throwW .packError
termination_by structural fuel => fuel

/-- The element loop of the array write paths: every value is emitted in
order (no slot accounting on write). -/
def writeRecListW : Nat → List Rec → WriteM Unit
  | 0, _ => throwW .outOfFuelW
  | _ + 1, [] => pure ()
  | f + 1, r :: rest => do
    writeRecord f r
    writeRecListW f rest
termination_by structural fuel => fuel

end

mutual

/-- A computable size measure on records, used only to pick a sufficient
write fuel (the Python recursion is structural on the record tree). -/
def Rec.msize : Rec → Nat
  | .classWithId _ _ vs => 1 + MValue.msizeList vs
  | .systemClassWithMembersAndTypes _ _ vs => 1 + MValue.msizeList vs
  | .classWithMembersAndTypes _ _ _ vs => 1 + MValue.msizeList vs
  | .binaryArray _ _ _ _ _ _ _ vs => 1 + Rec.msizeList vs
  | .arraySingleObject _ _ vs => 1 + Rec.msizeList vs
  | .arraySingleString _ _ vs => 1 + Rec.msizeList vs
  | _ => 1

def Rec.msizeList : List Rec → Nat
  | [] => 1
  | r :: rest => 1 + Rec.msize r + Rec.msizeList rest

def MValue.msizeList : List MValue → Nat
  | [] => 1
  | .prim _ :: rest => 1 + MValue.msizeList rest
  | .record r :: rest => 1 + Rec.msize r + MValue.msizeList rest

end

/-- The records loop of `UDLG.encode`. -/
def writeRecordsLoop (fuel : Nat) : List Rec → WriteM Unit
  | [] => pure ()
  | r :: rest => do
    writeRecord fuel r
    writeRecordsLoop fuel rest

/-- `UDLG.encode`: the 24-byte header verbatim, then every record
serialized into a staging buffer, gzip-compressed when
`data["Compressed"]` is set, appended to the output. -/
def udlgEncode (d : UdlgData) : Except WErr Bytes :=
  let fuel := Rec.msizeList d.records + 16
  match writeRecordsLoop fuel d.records ⟨[], d.records.map .finished, []⟩ with
  | .ok (_, s) =>
    .ok (d.header ++ (if d.compressed then compressGzipZlib s.out else s.out))
  | .error e => .error e

end Udlg

namespace Udlg

/-! ### Bit-arithmetic helpers -/

theorem natlor_small {a : Nat} (b s : Nat) (h : a < 2 ^ s) :
    a ||| (b <<< s) = a + b * 2 ^ s := by
  apply Nat.eq_of_testBit_eq
  intro i
  have hsum : a + b * 2 ^ s = 2 ^ s * b + a := by ring
  rw [hsum, Nat.testBit_mul_pow_two_add b h i]
  rcases Nat.lt_or_ge i s with hi | hi
  · have hbs : Nat.testBit (b <<< s) i = false := by
      simp [Nat.testBit_shiftLeft, Nat.not_le_of_lt hi]
    simp [Nat.testBit_or, hbs, if_pos hi]
  · have ha : Nat.testBit a i = false :=
      Nat.testBit_lt_two_pow (Nat.lt_of_lt_of_le h (Nat.pow_le_pow_right (by omega) hi))
    simp [Nat.testBit_or, ha, Nat.testBit_shiftLeft, hi, Nat.not_lt_of_ge hi]

theorem and127_of_lt {v : Nat} (h : v < 128) : v &&& 127 = v := by
  have := Nat.and_pow_two_sub_one_of_lt_two_pow (n := 7) (x := v) h
  simpa using this

theorem and128_of_lt {v : Nat} (h : v < 128) : v &&& 128 = 0 := by
  apply Nat.eq_of_testBit_eq
  intro i
  rw [Nat.testBit_and]
  rcases Decidable.em (i = 7) with hi | hi
  · subst hi
    have hv : Nat.testBit v 7 = false := Nat.testBit_lt_two_pow (by omega)
    simp [hv]
  · have h128 : Nat.testBit 128 i = false := by
      have : (128 : Nat) = 2 ^ 7 := by norm_num
      rw [this, Nat.testBit_two_pow]
      simpa using fun hh => hi hh.symm
    simp [h128]

theorem testBit128_seven : Nat.testBit 128 7 = true := by decide

theorem orb128_and127 {v : Nat} (h : v < 128) : (v ||| 128) &&& 127 = v := by
  apply Nat.eq_of_testBit_eq
  intro i
  rw [Nat.testBit_and, Nat.testBit_or]
  have h127 : Nat.testBit 127 i = decide (i < 7) := by
    have : (127 : Nat) = 2 ^ 7 - 1 := by norm_num
    rw [this, Nat.testBit_two_pow_sub_one]
  have h128 : Nat.testBit 128 i = decide (7 = i) := by
    have : (128 : Nat) = 2 ^ 7 := by norm_num
    rw [this, Nat.testBit_two_pow]
  rcases Nat.lt_or_ge i 7 with hi | hi
  · rw [h127, h128]
    simp [hi, Nat.ne_of_gt hi]
  · have hv : Nat.testBit v i = false :=
      Nat.testBit_lt_two_pow (Nat.lt_of_lt_of_le h (by
        have : (128 : Nat) = 2 ^ 7 := by norm_num
        rw [this]
        exact Nat.pow_le_pow_right (by omega) hi))
    rw [h127, h128, hv]
    simp [Nat.not_lt_of_ge hi]

theorem orb128_and128_ne {v : Nat} : (v ||| 128) &&& 128 ≠ 0 := by
  intro h
  have h7 : Nat.testBit ((v ||| 128) &&& 128) 7 = true := by
    rw [Nat.testBit_and, Nat.testBit_or, testBit128_seven]
    simp
  rw [h] at h7
  simp at h7

/-- `write7bitAux` is never empty on a positive value. -/
theorem write7bitAux_ne_nil {f v : Nat} (hv : 0 < v) (hf : v ≤ f) :
    write7bitAux f v ≠ [] := by
  match f with
  | 0 => omega
  | f + 1 =>
    unfold write7bitAux
    dsimp only
    split <;> simp

/-- Reading back the digits written for a positive value: the accumulator
gains `v * 2 ^ shift` and the rest of the stream is untouched. -/
theorem read7_write7aux :
    ∀ f v shift acc rest, 0 < v → v ≤ f → v < 2 ^ (35 - shift) → shift ≤ 28 →
    shift % 7 = 0 → acc < 2 ^ shift →
    read7bitCore (write7bitAux f v ++ rest) shift acc = .ok (acc + v * 2 ^ shift, rest) := by
  intro f
  induction f with
  | zero => intro v shift acc rest hv hf; omega
  | succ g ih =>
    intro v shift acc rest hv hf hbound hsh hsh7 hacc
    unfold write7bitAux
    dsimp only
    rcases Nat.lt_or_ge v 128 with hsmall | hbig
    · have hdiv : v / 128 = 0 := Nat.div_eq_of_lt hsmall
      rw [if_neg (by omega)]
      rw [Nat.mod_eq_of_lt hsmall]
      show read7bitCore (v :: rest) shift acc = _
      rw [read7bitCore]
      simp only [and127_of_lt hsmall, and128_of_lt hsmall]
      rw [natlor_small v shift hacc]
      simp
    · have hdiv : 0 < v / 128 := Nat.div_pos hbig (by omega)
      rw [if_pos hdiv]
      show read7bitCore ((v % 128 ||| 128) :: (write7bitAux g (v / 128) ++ rest)) shift acc = _
      rw [read7bitCore]
      simp only [orb128_and127 (Nat.mod_lt v (by omega)), if_neg orb128_and128_ne]
      have hshlt : shift < 28 := by
        by_contra hcon
        have h28 : shift = 28 := by omega
        subst h28
        norm_num at hbound
        omega
      rw [if_neg (by omega)]
      have hltrec : v / 128 < 2 ^ (35 - (shift + 7)) := by
        have hlt : v < 2 ^ (35 - (shift + 7)) * 128 := by
          have : (2 : Nat) ^ (35 - (shift + 7)) * 128 = 2 ^ (35 - shift) := by
            have h2 : (128 : Nat) = 2 ^ 7 := by norm_num
            rw [h2, ← Nat.pow_add]
            congr 1
            omega
          omega
        exact Nat.div_lt_of_lt_mul (by omega)
      have haccrec : acc ||| ((v % 128) <<< shift) < 2 ^ (shift + 7) := by
        rw [natlor_small (v % 128) shift hacc]
        have hle : v % 128 ≤ 127 := by omega
        have hmul := Nat.mul_le_mul_right (2 ^ shift) hle
        have hpow : (2 : Nat) ^ (shift + 7) = 2 ^ shift * 128 := by
          rw [Nat.pow_add]
        have hpos := Nat.pos_pow_of_pos shift (show 0 < 2 by omega)
        omega
      rw [ih (v / 128) (shift + 7) (acc ||| ((v % 128) <<< shift)) rest hdiv
        (by
          have : v / 128 < v := Nat.div_lt_self hv (by omega)
          omega)
        hltrec (by omega) (by omega) haccrec]
      congr 2
      rw [natlor_small (v % 128) shift hacc]
      have hv128 : 128 * (v / 128) + v % 128 = v := Nat.div_add_mod v 128
      have hpow : (2 : Nat) ^ (shift + 7) = 2 ^ shift * 128 := by
        rw [Nat.pow_add]
      rw [hpow]
      nlinarith [hv128]

theorem log2_div128 {v : Nat} (_h : 128 ≤ v) :
    Nat.log2 (v / 128) = Nat.log2 v - 7 := by
  have hchain : v / 128 = v / 2 / 2 / 2 / 2 / 2 / 2 / 2 := by omega
  rw [hchain, Nat.log2_eq_log_two, Nat.log2_eq_log_two,
    Nat.log_div_base, Nat.log_div_base, Nat.log_div_base, Nat.log_div_base,
    Nat.log_div_base, Nat.log_div_base, Nat.log_div_base]
  omega

theorem write7bitAux_length :
    ∀ f v, 0 < v → v ≤ f → (write7bitAux f v).length = Nat.log2 v / 7 + 1 := by
  intro f
  induction f with
  | zero => intro v hv hf; omega
  | succ g ih =>
    intro v hv hf
    unfold write7bitAux
    dsimp only
    rcases Nat.lt_or_ge v 128 with hsmall | hbig
    · rw [if_neg (by omega)]
      have hlog : Nat.log2 v < 7 := (Nat.log2_lt (by omega)).mpr (by norm_num; omega)
      simp [Nat.div_eq_of_lt hlog]
    · have hdiv : 0 < v / 128 := Nat.div_pos hbig (by omega)
      rw [if_pos hdiv]
      have hrec := ih (v / 128) hdiv (by
        have : v / 128 < v := Nat.div_lt_self hv (by omega)
        omega)
      have hlog7 : 7 ≤ Nat.log2 v := (Nat.le_log2 (by omega)).mpr (by norm_num; omega)
      simp only [List.length_cons, hrec, log2_div128 hbig]
      have := Nat.div_eq_sub_div (show 0 < 7 by omega) hlog7
      omega

theorem write7bitAux_highbits :
    ∀ f v, 0 < v → v ≤ f → ∀ b ∈ (write7bitAux f v).dropLast, 128 ≤ b := by
  intro f
  induction f with
  | zero => intro v hv hf; omega
  | succ g ih =>
    intro v hv hf b hb
    rw [write7bitAux] at hb
    rcases Nat.lt_or_ge v 128 with hsmall | hbig
    · rw [if_neg (by simp [Nat.div_eq_of_lt hsmall])] at hb
      simp at hb
    · have hdiv : 0 < v / 128 := Nat.div_pos hbig (by omega)
      rw [if_pos hdiv] at hb
      have hvg : v / 128 ≤ g := by
        have : v / 128 < v := Nat.div_lt_self hv (by omega)
        omega
      have hne := write7bitAux_ne_nil hdiv hvg
      match hrest : write7bitAux g (v / 128) with
      | [] => exact absurd hrest hne
      | x :: xs =>
        rw [hrest] at hb
        simp only [List.dropLast_cons₂, List.mem_cons] at hb
        rcases hb with hb | hb
        · subst hb
          have h := natlor_small (a := v % 128) 1 7 (by omega)
          have h7 : (1 : Nat) <<< 7 = 128 := rfl
          rw [h7] at h
          omega
        · have := ih (v / 128) hdiv hvg b (by rw [hrest]; exact hb)
          omega

end Udlg

namespace Udlg

/-- C7: for every `n` in `[0, 2^32)`, reading back a written 7-bit encoded
integer returns `n` (and leaves trailing bytes untouched); for positive `n`
the encoded byte length is `⌈bits(n)/7⌉` with `bits(n) = log2 n + 1`, zero
encodes as the single byte `00`, and every non-final byte has its high bit
set; concretely 300 encodes as `AC 02`, 127 as `7F`, 128 as `80 01` and 0
as `00`. -/
theorem varint_roundtrip_c7 :
    (∀ n rest, n < 2 ^ 32 →
      read7bitCore (write7bitEncodedInt n ++ rest) 0 0 = .ok (n, rest) ∧
      (0 < n → (write7bitEncodedInt n).length = (Nat.log2 n + 1 + 6) / 7) ∧
      (∀ b ∈ (write7bitEncodedInt n).dropLast, 128 ≤ b)) ∧
    write7bitEncodedInt 300 = [0xAC, 0x02] ∧
    write7bitEncodedInt 127 = [0x7F] ∧
    write7bitEncodedInt 128 = [0x80, 0x01] ∧
    write7bitEncodedInt 0 = [0x00] := by
  refine ⟨?_, by decide, by decide, by decide, by decide⟩
  intro n rest hn
  rcases Nat.eq_zero_or_pos n with hz | hpos
  · subst hz
    refine ⟨?_, by omega, by simp [write7bitEncodedInt]⟩
    simp [write7bitEncodedInt, read7bitCore]
  · have hne : n ≠ 0 := by omega
    unfold write7bitEncodedInt
    rw [if_neg hne]
    refine ⟨?_, ?_, ?_⟩
    · have h := read7_write7aux n n 0 0 rest hpos (Nat.le_refl n)
        (by
          have : (2 : Nat) ^ 32 ≤ 2 ^ 35 := Nat.pow_le_pow_right (by omega) (by omega)
          simpa using Nat.lt_of_lt_of_le hn this)
        (by omega) (by omega) (by norm_num)
      simpa using h
    · intro _
      rw [write7bitAux_length n n hpos (Nat.le_refl n)]
      have := Nat.add_div_right (Nat.log2 n) (show 0 < 7 by omega)
      omega
    · exact write7bitAux_highbits n n hpos (Nat.le_refl n)

/-- Witness for `varint_roundtrip_c7` at `n = 300`. -/
theorem varint_roundtrip_c7_witness :
    read7bitCore (write7bitEncodedInt 300 ++ [9]) 0 0 = .ok (300, [9]) ∧
    (write7bitEncodedInt 300).length = (Nat.log2 300 + 1 + 6) / 7 :=
  ⟨(varint_roundtrip_c7.1 300 [9] (by norm_num)).1,
   (varint_roundtrip_c7.1 300 [9] (by norm_num)).2.1 (by norm_num)⟩

end Udlg

namespace Udlg

/-- C2: the `decode` command fails with the signature error exactly when
the first 16 bytes of the input differ from `UDLG_SIGNATURE`; when they
match, parsing may fail, but never with `BadSignature`. -/
theorem signature_gate_c2 (b : Bytes) :
    decodeCommand b = .error .badSignature ↔ b.take 16 ≠ udlgSignature := by
  unfold decodeCommand
  by_cases h : b.take 16 = udlgSignature
  · rw [if_pos h]
    constructor
    · intro hcon
      cases hp : udlgParse b <;> rw [hp] at hcon <;> simp at hcon
    · intro hcon
      exact absurd h hcon
  · rw [if_neg h]
    simp [h]

/-- Witness for `signature_gate_c2`: a stream of sixteen zero bytes is
rejected with the signature error. -/
theorem signature_gate_c2_witness :
    decodeCommand (List.replicate 16 0) = .error .badSignature :=
  (signature_gate_c2 (List.replicate 16 0)).mpr (by decide)

end Udlg

namespace Udlg

/-- A minimal uncompressed UDLG file: the signature, an all-zero 8-byte
header, one `ArraySinglePrimitive` record (`object_id = 1`, `length = 0`,
element kind `Int32`), then `MessageEnd`. -/
def c1File : Bytes :=
  udlgSignature ++ [0, 0, 0, 0, 0, 0, 0, 0] ++
    [0x0F, 1, 0, 0, 0, 0, 0, 0, 0, 8] ++ [0x0B]

/-- The decode of `c1File`. -/
def c1Data : UdlgData :=
  ⟨udlgSignature ++ [0, 0, 0, 0, 0, 0, 0, 0],
   [.arraySinglePrimitive 1 0 .Int32 [], .messageEnd], false⟩

/-- C1 (code bug): `c1File` is accepted by decode, but re-encoding the
decoded result does not reproduce it — it raises, because
`handle_array_single_primitive`'s write path hands
`record["PrimitiveTypeEnum"]` (the kind's *name string*) to
`read_write_enum`, whose write branch evaluates `value.value`
(`AttributeError: 'str' object has no attribute 'value'`).  The spec's
round-trip law (`encode(decode(F)) == F` for accepted uncompressed `F`)
is therefore violated by every file containing an `ArraySinglePrimitive`
record. -/
theorem roundtrip_c1_bug :
    (udlgParse c1File).map Prod.fst = .ok c1Data ∧
    udlgEncode c1Data = .error .enumNameAttributeError :=
  ⟨rfl, rfl⟩

end Udlg

namespace Udlg

/-- Inversion of a successful `DecM` bind. -/
theorem decBind_ok {α β : Type} (m : DecM α) (f : α → DecM β) (s : DecSt)
    (r : β × DecSt) :
    (m >>= f) s = .ok r ↔ ∃ a s1, m s = .ok (a, s1) ∧ f a s1 = .ok r := by
  show (match m s with
    | .ok (a, s1) => f a s1
    | .error e => .error e) = .ok r ↔ _
  cases hm : m s with
  | ok p =>
    cases p with
    | mk a s1 =>
      constructor
      · intro h
        exact ⟨a, s1, rfl, h⟩
      · rintro ⟨a1, s11, heq, hf⟩
        cases heq
        exact hf
  | error e =>
    constructor
    · intro h
      simp at h
    · rintro ⟨a1, s11, heq, hf⟩
      simp at heq

/-- `pure` in `DecM`. -/
theorem decPure_eq {α : Type} (a : α) (s : DecSt) :
    (pure a : DecM α) s = .ok (a, s) := rfl

/-- Forward evaluation of a successful `DecM` bind. -/
theorem decBind_eq {α β : Type} (m : DecM α) (f : α → DecM β) (s : DecSt)
    (a : α) (s1 : DecSt) (h : m s = .ok (a, s1)) :
    (m >>= f) s = f a s1 := by
  show (match m s with
    | .ok (a, s1) => f a s1
    | .error e => .error e) = f a s1
  rw [h]

/-- `slotSum` over a cons. -/
theorem slotSum_cons (r : Rec) (rs : List Rec) :
    slotSum (r :: rs) = r.slotContribution + slotSum rs := by
  simp [slotSum]

/-- The member loop of `read_write_class_values` reads exactly
`total - idx` member values on success: one value per remaining member,
with no null-run accounting. -/
theorem readClassValuesGo_length :
    ∀ fuel mti idx total s vs s1,
      readClassValuesGo fuel mti idx total s = .ok (vs, s1) →
      vs.length = total - idx := by
  intro fuel
  induction fuel with
  | zero =>
    intro mti idx total s vs s1 h
    exact absurd h (by simp [readClassValuesGo, throwD])
  | succ f ih =>
    intro mti idx total s vs s1 h
    rw [readClassValuesGo] at h
    by_cases hlt : idx < total
    · rw [if_pos hlt] at h
      rw [decBind_ok] at h
      obtain ⟨bt, sa, hbt, h⟩ := h
      rw [decBind_ok] at h
      obtain ⟨extra, sb, hextra, h⟩ := h
      rw [decBind_ok] at h
      obtain ⟨v, sc, hv, h⟩ := h
      rw [decBind_ok] at h
      obtain ⟨rest, sd, hrest, h⟩ := h
      rw [decPure_eq] at h
      cases h
      have := ih mti (idx + 1) total sc rest _ hrest
      simp only [List.length_cons, this]
      omega
    · rw [if_neg hlt, decPure_eq] at h
      cases h
      simp
      omega

/-- The element loop shared by `handle_binary_array` and
`read_write_array_values` lands the slot cursor exactly on the declared
count whenever it succeeds from a cursor not already past it. -/
theorem readArrayValuesGo_sum :
    ∀ fuel lengthVal i s vs s1,
      readArrayValuesGo fuel lengthVal i s = .ok (vs, s1) →
      i ≤ lengthVal →
      i + slotSum vs = lengthVal := by
  intro fuel
  induction fuel with
  | zero =>
    intro lengthVal i s vs s1 h
    exact absurd h (by simp [readArrayValuesGo, throwD])
  | succ f ih =>
    intro lengthVal i s vs s1 h hle
    rw [readArrayValuesGo] at h
    by_cases hlt : i < lengthVal
    · rw [if_pos hlt] at h
      rw [decBind_ok] at h
      obtain ⟨r, sa, hr, h⟩ := h
      by_cases hover : i + r.slotContribution > lengthVal
      · rw [if_pos hover] at h
        exact absurd h (by simp [throwD])
      · rw [if_neg hover] at h
        rw [decBind_ok] at h
        obtain ⟨rest, sb, hrest, h⟩ := h
        rw [decPure_eq] at h
        cases h
        have := ih lengthVal (i + r.slotContribution) sa rest _ hrest (by omega)
        rw [slotSum_cons]
        omega
    · rw [if_neg hlt, decPure_eq] at h
      cases h
      simp [slotSum]
      omega

end Udlg

namespace Udlg

/-- Record bytes: `ClassWithMembersAndTypes`, `ObjectId=1`, name `"A"`,
`MemberCount=2`, members `"a"`/`"b"`, both of kind `Object`,
`LibraryId=3`, followed by `ObjectNullMultiple256{count=2}` and
`ObjectNull`. -/
def c3ClassBytes : Bytes :=
  [0x05, 1, 0, 0, 0, 1, 0x41, 2, 0, 0, 0, 1, 0x61, 1, 0x62,
   2, 2, 3, 0, 0, 0, 0x0D, 2, 0x0A]

def c3ClassInfo : ClassInfo := ⟨1, [0x41], 2, [[0x61], [0x62]]⟩

def c3Mti : MemberTypeInfo := ⟨[.Object, .Object], [.noInfo, .noInfo]⟩

def c3Rec : Rec :=
  .classWithMembersAndTypes c3ClassInfo c3Mti 3
    [.record (.objectNullMultiple256 2), .record .objectNull]

def c3St : DecSt := ⟨[], [.tempClosed c3Rec], [(1, c3Rec)], []⟩

/-- C3 counterexample: decoding the class above consumes *two* member
records — the null-run record `ObjectNullMultiple256{count=2}` advances
the member cursor by one slot, not by its count, so the sum of the
claim's slot contributions over the decoded member values (2 + 1 = 3)
does not equal the declared member count 2. -/
theorem class_nullrun_c3_counterexample :
    readRecord 50 ⟨c3ClassBytes, [], [], []⟩ = .ok (c3Rec, c3St) ∧
    slotSum [.objectNullMultiple256 2, .objectNull] ≠ c3ClassInfo.memberCount :=
  ⟨rfl, by decide⟩

/-- C3 amended: null-run records advance the slot cursor by their count
only in *array* element sequences (`handle_binary_array`,
`read_write_array_values`), where the contributions of the consumed
values sum exactly to the declared length on success; in *class member*
sequences there is no null-run expansion — exactly `member_count` member
values are read, each contributing one slot (so the decoded class above
holds two member records). -/
theorem class_nullrun_c3_amended :
    (∀ fuel mti total s vs s1,
      readClassValuesGo fuel mti 0 total s = .ok (vs, s1) → vs.length = total) ∧
    (∀ fuel lengthVal s vs s1, (0 : Int) ≤ lengthVal →
      readArrayValuesGo fuel lengthVal 0 s = .ok (vs, s1) → slotSum vs = lengthVal) ∧
    readRecord 50 ⟨c3ClassBytes, [], [], []⟩ = .ok (c3Rec, c3St) := by
  refine ⟨?_, ?_, rfl⟩
  · intro fuel mti total s vs s1 h
    have := readClassValuesGo_length fuel mti 0 total s vs s1 h
    simpa using this
  · intro fuel lengthVal s vs s1 hle h
    have := readArrayValuesGo_sum fuel lengthVal 0 s vs s1 h hle
    omega

/-- Witness for `class_nullrun_c3_amended`: the class member loop of the
example reads exactly two values, and the array loop on
`[ObjectNull, ObjectNullMultiple{3}, ObjectNull]` sums to the declared 5. -/
theorem class_nullrun_c3_amended_witness :
    ([MValue.record (.objectNullMultiple256 2), .record .objectNull]).length = 2 ∧
    slotSum [.objectNull, .objectNullMultiple 3, .objectNull] = 5 :=
  ⟨class_nullrun_c3_amended.1 40 c3Mti 2 ⟨[0x0D, 2, 0x0A], [], [], []⟩ _
      ⟨[], [], [], []⟩ rfl,
   class_nullrun_c3_amended.2.1 40 5 ⟨[0x0A, 0x0E, 3, 0, 0, 0, 0x0A], [], [], []⟩ _
      ⟨[], [], [], []⟩ (by norm_num) rfl⟩

/-- S5 with `count=3`: `ArraySingleObject{object_id=3, length=5}` with
values `[ObjectNull, ObjectNullMultiple{3}, ObjectNull]`. -/
def c4OkBytes : Bytes :=
  [0x10, 3, 0, 0, 0, 5, 0, 0, 0, 0x0A, 0x0E, 3, 0, 0, 0, 0x0A]

/-- S5 variant with `count=4`: `[ObjectNull, ObjectNullMultiple{4}, ObjectNull]`. -/
def c4VarBytes : Bytes :=
  [0x10, 3, 0, 0, 0, 5, 0, 0, 0, 0x0A, 0x0E, 4, 0, 0, 0, 0x0A]

/-- A variant whose cursor lands strictly past 5:
`[ObjectNull, ObjectNull, ObjectNullMultiple{4}]`. -/
def c4FailBytes : Bytes :=
  [0x10, 3, 0, 0, 0, 5, 0, 0, 0, 0x0A, 0x0A, 0x0E, 4, 0, 0, 0]

/-- C4 counterexample: the claim's `count=4` variant (listed slot sum 6)
does **not** fail with `ArrayOverrun`: the reader stops once the cursor
reaches 5 after `[ObjectNull, ObjectNullMultiple{4}]` and simply leaves
the trailing `ObjectNull` byte unconsumed. -/
theorem array_overrun_c4_counterexample :
    readRecord 50 ⟨c4VarBytes, [], [], []⟩ =
      .ok (.arraySingleObject 3 5 [.objectNull, .objectNullMultiple 4],
           ⟨[0x0A], [], [], []⟩) ∧
    readRecord 50 ⟨c4VarBytes, [], [], []⟩ ≠ .error .arrayOverrun := by
  have h : readRecord 50 ⟨c4VarBytes, [], [], []⟩ =
      .ok (.arraySingleObject 3 5 [.objectNull, .objectNullMultiple 4],
           ⟨[0x0A], [], [], []⟩) := rfl
  exact ⟨h, by rw [h]; exact fun hcon => Except.noConfusion hcon⟩

/-- C4 amended: the array element loop fails with `ArrayOverrun` exactly
when a single record pushes the slot cursor strictly past the declared
length; on success the consumed contributions sum to the length exactly,
and a record stream whose nominal sum exceeds the length without
overshooting mid-record merely leaves the excess records unconsumed.
Concretely, S5 with `count=3` decodes with slot sum 5, and
`[ObjectNull, ObjectNull, ObjectNullMultiple{4}]` (cursor 1, 2, then 6)
fails with `ArrayOverrun`. -/
theorem array_overrun_c4_amended :
    (∀ fuel lengthVal i s r s1, i < lengthVal →
      readRecord fuel s = .ok (r, s1) →
      i + r.slotContribution > lengthVal →
      readArrayValuesGo (fuel + 1) lengthVal i s = .error .arrayOverrun) ∧
    (∀ fuel lengthVal s vs s1, (0 : Int) ≤ lengthVal →
      readArrayValuesGo fuel lengthVal 0 s = .ok (vs, s1) → slotSum vs = lengthVal) ∧
    readRecord 50 ⟨c4OkBytes, [], [], []⟩ =
      .ok (.arraySingleObject 3 5 [.objectNull, .objectNullMultiple 3, .objectNull],
           ⟨[], [], [], []⟩) ∧
    readRecord 50 ⟨c4FailBytes, [], [], []⟩ = .error .arrayOverrun := by
  refine ⟨?_, ?_, rfl, rfl⟩
  · intro fuel lengthVal i s r s1 hlt hr hover
    rw [readArrayValuesGo, if_pos hlt, decBind_eq _ _ _ _ _ hr]
    rw [if_pos hover]
    rfl
  · intro fuel lengthVal s vs s1 hle h
    have := readArrayValuesGo_sum fuel lengthVal 0 s vs s1 h hle
    omega

end Udlg

namespace Udlg

/-- `BinaryArray` bytes: `ObjectId=1`, kind `Jagged`, `rank=1`, one length
1, element kind `Object`, one `ObjectNull` element. -/
def c6JaggedBytes : Bytes :=
  [0x07, 1, 0, 0, 0, 1, 1, 0, 0, 0, 1, 0, 0, 0, 2, 0x0A]

/-- The same array with kind `SingleOffset`. -/
def c6OffsetBytes : Bytes :=
  [0x07, 1, 0, 0, 0, 3, 1, 0, 0, 0, 1, 0, 0, 0, 1, 0, 0, 0, 2, 0x0A]

/-- C6 counterexample: a `BinaryArray` of kind `Jagged` with `rank = 1` is
*accepted* (decoded like a `Single` array), although the claim says every
non-`Single` kind must fail with `UnsupportedArrayShape`. -/
theorem array_shape_c6_counterexample :
    readRecord 50 ⟨c6JaggedBytes, [], [], []⟩ =
      .ok (.binaryArray 1 .Jagged 1 [1] [] .Object .noInfo [.objectNull],
           ⟨[], [], [], []⟩) ∧
    readRecord 50 ⟨c6JaggedBytes, [], [], []⟩ ≠ .error .unsupportedArrayShape := by
  have h : readRecord 50 ⟨c6JaggedBytes, [], [], []⟩ =
      .ok (.binaryArray 1 .Jagged 1 [1] [] .Object .noInfo [.objectNull],
           ⟨[], [], [], []⟩) := rfl
  exact ⟨h, by rw [h]; exact fun hcon => Except.noConfusion hcon⟩

/-- C6 amended: after its header fields parse, a `BinaryArray` record is
rejected with `UnsupportedArrayShape` precisely by the test the code
performs — kind name ending in `Offset`, or `rank > 1`; every other
combination proceeds to the element loop, so `Jagged` or `Rectangular`
with `rank = 1` is accepted (and `Single` with `rank = 0` falls through to
an `IndexError` on `lengths[0]` instead). -/
theorem array_shape_c6_amended :
    (∀ fuel s hdr s1, readBinaryArrayHeader s = .ok (hdr, s1) →
      (hdr.arrayType.endsWithOffset = true ∨ hdr.rank > 1) →
      readBinaryArray (fuel + 1) s = .error .unsupportedArrayShape) ∧
    readRecord 50 ⟨c6JaggedBytes, [], [], []⟩ =
      .ok (.binaryArray 1 .Jagged 1 [1] [] .Object .noInfo [.objectNull],
           ⟨[], [], [], []⟩) ∧
    readRecord 50 ⟨c6OffsetBytes, [], [], []⟩ = .error .unsupportedArrayShape := by
  refine ⟨?_, rfl, rfl⟩
  intro fuel s hdr s1 hhdr hbad
  rw [readBinaryArray, decBind_eq _ _ _ _ _ hhdr]
  have hcond : (hdr.arrayType.endsWithOffset || hdr.rank > 1) = true := by
    rcases hbad with hb | hb
    · simp [hb]
    · simp [hb]
  rw [if_pos hcond]
  rfl

/-- Witness for `array_shape_c6_amended`: the offset-kind header parses
and the shape check rejects it. -/
theorem array_shape_c6_amended_witness :
    readBinaryArray 10 ⟨c6OffsetBytes.drop 1, [], [], []⟩ =
      .error .unsupportedArrayShape :=
  array_shape_c6_amended.1 9 ⟨c6OffsetBytes.drop 1, [], [], []⟩
    ⟨1, .SingleOffset, 1, [1], [1], .Object, .noInfo⟩ ⟨[0x0A], [], [], []⟩
    rfl (Or.inl rfl)

/-- Bytes for C10: `ArraySingleObject{object_id=7, length=1}` whose first
element is `ObjectNullMultiple256{count=0}`, followed by `ObjectNull`. -/
def c10ZeroBytes : Bytes :=
  [0x10, 7, 0, 0, 0, 1, 0, 0, 0, 0x0D, 0, 0x0A]

/-- Bytes for C10: `ArraySingleObject{object_id=7, length=1}` whose first
element is `ObjectNullMultiple{count=-1}`, followed by two `ObjectNull`s. -/
def c10NegBytes : Bytes :=
  [0x10, 7, 0, 0, 0, 1, 0, 0, 0, 0x0E, 0xFF, 0xFF, 0xFF, 0xFF, 0x0A, 0x0A]

/-- C10: a null-run record with `count = 0` contributes zero slots and
raises no error — it is kept in the values and reading continues until the
cursor reaches the declared length; a negative `ObjectNullMultiple` count
likewise raises no error and moves the cursor backwards (here from 0 to
-1, so *three* records fill a length-1 array). -/
theorem nullrun_degenerate_c10 :
    readRecord 50 ⟨c10ZeroBytes, [], [], []⟩ =
      .ok (.arraySingleObject 7 1 [.objectNullMultiple256 0, .objectNull],
           ⟨[], [], [], []⟩) ∧
    readRecord 50 ⟨c10NegBytes, [], [], []⟩ =
      .ok (.arraySingleObject 7 1
            [.objectNullMultiple (-1), .objectNull, .objectNull],
           ⟨[], [], [], []⟩) :=
  ⟨rfl, rfl⟩

end Udlg

namespace Udlg

/-- Witness for `array_overrun_c4_amended`: reading
`ObjectNullMultiple{4}` from cursor 2 of a length-5 array overruns, and
the S5 example's contributions sum to 5. -/
theorem array_overrun_c4_amended_witness :
    readArrayValuesGo 11 5 2 ⟨[0x0E, 4, 0, 0, 0], [], [], []⟩ =
      .error .arrayOverrun ∧
    slotSum [.objectNull, .objectNullMultiple 3, .objectNull] = 5 :=
  ⟨array_overrun_c4_amended.1 10 5 2 ⟨[0x0E, 4, 0, 0, 0], [], [], []⟩
      (.objectNullMultiple 4) ⟨[], [], [], []⟩ (by norm_num) rfl (by decide),
   array_overrun_c4_amended.2.1 40 5 ⟨[0x0A, 0x0E, 3, 0, 0, 0, 0x0A], [], [], []⟩
      _ ⟨[], [], [], []⟩ (by norm_num) rfl⟩

/-- The records whose decode path runs `read_write_class_values` — the
only records `self.objects` is ever populated with. -/
def Rec.isClassValuesRecord : Rec → Prop
  | .classWithId .. => True
  | .systemClassWithMembersAndTypes .. => True
  | .classWithMembersAndTypes .. => True
  | _ => False

/-- Invariant of the object index: every entry is a class record. -/
def objInv (l : List (Int × Rec)) : Prop :=
  ∀ p ∈ l, Rec.isClassValuesRecord p.2

/-- A decode computation whose successful runs preserve `objInv`. -/
def ObjPres {α : Type} (m : DecM α) : Prop :=
  ∀ s a s1, m s = .ok (a, s1) → objInv s.objects → objInv s1.objects

/-- A decode computation whose successful runs leave `objects` unchanged. -/
def ObjEq {α : Type} (m : DecM α) : Prop :=
  ∀ s a s1, m s = .ok (a, s1) → s1.objects = s.objects

theorem ObjEq.objPres {α : Type} {m : DecM α} (h : ObjEq m) : ObjPres m := by
  intro s a s1 hm hinv
  rw [h s a s1 hm]
  exact hinv

theorem objEq_pure {α : Type} (a : α) : ObjEq (pure a : DecM α) := by
  intro s b s1 h
  rw [decPure_eq] at h
  cases h
  rfl

theorem objEq_throw {α : Type} (e : DErr) : ObjEq (throwD e : DecM α) := by
  intro s b s1 h
  exact absurd h (by simp [throwD])

theorem objEq_bind {α β : Type} {m : DecM α} {f : α → DecM β}
    (hm : ObjEq m) (hf : ∀ a, ObjEq (f a)) : ObjEq (m >>= f) := by
  intro s b s2 h
  rw [decBind_ok] at h
  obtain ⟨a, s1, h1, h2⟩ := h
  rw [hf a s1 b s2 h2, hm s a s1 h1]

theorem objPres_pure {α : Type} (a : α) : ObjPres (pure a : DecM α) :=
  (objEq_pure a).objPres

theorem objPres_throw {α : Type} (e : DErr) : ObjPres (throwD e : DecM α) :=
  (objEq_throw e).objPres

theorem objPres_bind {α β : Type} {m : DecM α} {f : α → DecM β}
    (hm : ObjPres m) (hf : ∀ a, ObjPres (f a)) : ObjPres (m >>= f) := by
  intro s b s2 h hinv
  rw [decBind_ok] at h
  obtain ⟨a, s1, h1, h2⟩ := h
  exact hf a s1 b s2 h2 (hm s a s1 h1 hinv)

/-- Membership in a Python-style dict update. -/
theorem objInsert_mem {key : Int} {r : Rec} {l : List (Int × Rec)} {p : Int × Rec}
    (h : p ∈ objInsert key r l) : p = (key, r) ∨ p ∈ l := by
  induction l with
  | nil =>
    simp [objInsert] at h
    exact Or.inl h
  | cons q rest ih =>
    rw [objInsert] at h
    by_cases hk : q.1 = key
    · rw [if_pos hk] at h
      rcases List.mem_cons.mp h with h1 | h1
      · exact Or.inl (by rw [h1, hk])
      · exact Or.inr (List.mem_cons_of_mem q h1)
    · rw [if_neg hk] at h
      rcases List.mem_cons.mp h with h1 | h1
      · exact Or.inr (by rw [h1]; exact List.mem_cons_self q rest)
      · rcases ih h1 with h2 | h2
        · exact Or.inl h2
        · exact Or.inr (List.mem_cons_of_mem q h2)

theorem objPres_storeObject (key : Int) (r : Rec)
    (hr : Rec.isClassValuesRecord r) : ObjPres (storeObject key r) := by
  intro s a s1 h hinv
  cases s with
  | mk inp store objects references =>
    simp only [storeObject] at h
    cases h
    intro p hp
    rcases objInsert_mem hp with h1 | h1
    · rw [h1]
      exact hr
    · exact hinv p h1

end Udlg

namespace Udlg

theorem objEq_ite {α : Type} {c : Prop} [Decidable c] {m1 m2 : DecM α}
    (h1 : ObjEq m1) (h2 : ObjEq m2) : ObjEq (if c then m1 else m2) := by
  by_cases hc : c
  · rw [if_pos hc]; exact h1
  · rw [if_neg hc]; exact h2

theorem objPres_ite {α : Type} {c : Prop} [Decidable c] {m1 m2 : DecM α}
    (h1 : ObjPres m1) (h2 : ObjPres m2) : ObjPres (if c then m1 else m2) := by
  by_cases hc : c
  · rw [if_pos hc]; exact h1
  · rw [if_neg hc]; exact h2

theorem objEq_readB (n : Nat) : ObjEq (readB n) := by
  intro s a s1 h
  cases s with
  | mk inp store objects references =>
    simp only [readB] at h
    by_cases hle : n ≤ inp.length
    · rw [if_pos hle] at h
      cases h
      rfl
    · rw [if_neg hle] at h
      cases h

theorem objEq_readByteP : ObjEq readByteP := by
  apply objEq_bind (objEq_readB 1)
  intro bs
  match bs with
  | [] => exact objEq_throw _
  | [b] => exact objEq_pure _
  | _ :: _ :: _ => exact objEq_throw _

theorem objEq_readUIntP (w : Nat) : ObjEq (readUIntP w) :=
  objEq_bind (objEq_readB w) fun _ => objEq_pure _

theorem objEq_readIntP (w : Nat) : ObjEq (readIntP w) :=
  objEq_bind (objEq_readB w) fun _ => objEq_pure _

theorem objEq_read7bit : ObjEq read7bit := by
  intro s a s1 h
  cases s with
  | mk inp store objects references =>
    simp only [read7bit] at h
    cases hc : read7bitCore inp 0 0 with
    | ok p =>
      rw [hc] at h
      cases h
      rfl
    | error e =>
      rw [hc] at h
      cases h

theorem objEq_readString : ObjEq readString := by
  apply objEq_bind objEq_read7bit
  intro len
  apply objEq_bind (objEq_readB len)
  intro bs
  exact objEq_ite (objEq_pure _) (objEq_throw _)

theorem objEq_readDatetime : ObjEq readDatetime :=
  objEq_bind (objEq_readIntP 8) fun _ => objEq_pure _

theorem objEq_readPrimitive (pt : PrimitiveType) : ObjEq (readPrimitive pt) := by
  cases pt
  case Boolean => exact objEq_bind objEq_readByteP fun _ => objEq_pure _
  case Byte => exact objEq_bind (objEq_readUIntP 1) fun _ => objEq_pure _
  case SByte => exact objEq_bind (objEq_readIntP 1) fun _ => objEq_pure _
  case Int16 => exact objEq_bind (objEq_readIntP 2) fun _ => objEq_pure _
  case UInt16 => exact objEq_bind (objEq_readUIntP 2) fun _ => objEq_pure _
  case Int32 => exact objEq_bind (objEq_readIntP 4) fun _ => objEq_pure _
  case UInt32 => exact objEq_bind (objEq_readUIntP 4) fun _ => objEq_pure _
  case Int64 => exact objEq_bind (objEq_readIntP 8) fun _ => objEq_pure _
  case UInt64 => exact objEq_bind (objEq_readUIntP 8) fun _ => objEq_pure _
  case Single => exact objEq_bind (objEq_readB 4) fun _ => objEq_pure _
  case Double => exact objEq_bind (objEq_readB 8) fun _ => objEq_pure _
  case Char => exact objEq_bind objEq_readString fun _ => objEq_pure _
  case String => exact objEq_bind objEq_readString fun _ => objEq_pure _
  case Decimal => exact objEq_bind objEq_readString fun _ => objEq_pure _
  case DateTime => exact objEq_readDatetime
  case TimeSpan => exact objEq_bind (objEq_readIntP 8) fun _ => objEq_pure _
  case Null => exact objEq_throw _

theorem objEq_readPrimitiveTypeEnum : ObjEq readPrimitiveTypeEnum := by
  apply objEq_bind objEq_readByteP
  intro b
  cases h : PrimitiveType.ofNat? b <;> simp only [h]
  · exact objEq_throw _
  · exact objEq_pure _

theorem objEq_readBinaryTypeEnum : ObjEq readBinaryTypeEnum := by
  apply objEq_bind objEq_readByteP
  intro b
  cases h : BinaryType.ofNat? b <;> simp only [h]
  · exact objEq_throw _
  · exact objEq_pure _

theorem objEq_readBinaryArrayTypeEnum : ObjEq readBinaryArrayTypeEnum := by
  apply objEq_bind objEq_readByteP
  intro b
  cases h : BinaryArrayType.ofNat? b <;> simp only [h]
  · exact objEq_throw _
  · exact objEq_pure _

theorem objEq_readRecordTypeEnum : ObjEq readRecordTypeEnum := by
  apply objEq_bind objEq_readByteP
  intro b
  cases h : RecordType.ofNat? b <;> simp only [h]
  · exact objEq_throw _
  · exact objEq_pure _

theorem objEq_readClassTypeInfo : ObjEq readClassTypeInfo :=
  objEq_bind objEq_readString fun _ =>
    objEq_bind (objEq_readIntP 4) fun _ => objEq_pure _

theorem objEq_readBinaryTypeInfo (bt : BinaryType) : ObjEq (readBinaryTypeInfo bt) := by
  cases bt
  case Primitive => exact objEq_bind objEq_readPrimitiveTypeEnum fun _ => objEq_pure _
  case PrimitiveArray => exact objEq_bind objEq_readPrimitiveTypeEnum fun _ => objEq_pure _
  case SystemClass => exact objEq_bind objEq_readString fun _ => objEq_pure _
  case Class => exact objEq_readClassTypeInfo
  case String => exact objEq_pure _
  case StringArray => exact objEq_pure _
  case Object => exact objEq_pure _
  case ObjectArray => exact objEq_throw _

theorem objEq_readStrings (n : Nat) : ObjEq (readStrings n) := by
  induction n with
  | zero => exact objEq_pure _
  | succ k ih =>
    exact objEq_bind objEq_readString fun _ => objEq_bind ih fun _ => objEq_pure _

theorem objEq_readClassInfo : ObjEq readClassInfo :=
  objEq_bind (objEq_readIntP 4) fun _ =>
    objEq_bind objEq_readString fun _ =>
      objEq_bind (objEq_readIntP 4) fun mc =>
        objEq_bind (objEq_readStrings mc.toNat) fun _ => objEq_pure _

theorem objEq_readBinaryTypeEnums (n : Nat) : ObjEq (readBinaryTypeEnums n) := by
  induction n with
  | zero => exact objEq_pure _
  | succ k ih =>
    exact objEq_bind objEq_readBinaryTypeEnum fun _ => objEq_bind ih fun _ => objEq_pure _

theorem objEq_readAdditionalInfos (l : List BinaryType) : ObjEq (readAdditionalInfos l) := by
  induction l with
  | nil => exact objEq_pure _
  | cons bt rest ih =>
    exact objEq_bind (objEq_readBinaryTypeInfo bt) fun _ =>
      objEq_bind ih fun _ => objEq_pure _

theorem objEq_readMemberTypeInfo (n : Nat) : ObjEq (readMemberTypeInfo n) :=
  objEq_bind (objEq_readBinaryTypeEnums n) fun bts =>
    objEq_bind (objEq_readAdditionalInfos bts) fun _ => objEq_pure _

theorem objEq_readArrayInfo : ObjEq readArrayInfo :=
  objEq_bind (objEq_readIntP 4) fun _ =>
    objEq_bind (objEq_readIntP 4) fun _ => objEq_pure _

theorem objEq_readInt32List (n : Nat) : ObjEq (readInt32List n) := by
  induction n with
  | zero => exact objEq_pure _
  | succ k ih =>
    exact objEq_bind (objEq_readIntP 4) fun _ => objEq_bind ih fun _ => objEq_pure _

theorem objEq_readPrimList (pt : PrimitiveType) (n : Nat) : ObjEq (readPrimList pt n) := by
  induction n with
  | zero => exact objEq_pure _
  | succ k ih =>
    exact objEq_bind (objEq_readPrimitive pt) fun _ => objEq_bind ih fun _ => objEq_pure _

theorem objEq_listIdxD {α : Type} (l : List α) (i : Nat) : ObjEq (listIdxD l i) := by
  intro s a s1 h
  simp only [listIdxD] at h
  cases hidx : l[i]? with
  | some x =>
    rw [hidx] at h
    cases h
    rfl
  | none =>
    rw [hidx] at h
    cases h

theorem objEq_resolveMetadata (m : Int) : ObjEq (resolveMetadata m) := by
  intro s a s1 h
  simp only [resolveMetadata] at h
  cases hm : searchStore m s.store with
  | some o =>
    cases o with
    | some meta =>
      rw [hm] at h
      cases h
      rfl
    | none =>
      rw [hm] at h
      cases h
  | none =>
    rw [hm] at h
    cases h

theorem objEq_pushReference (idRef : Int) : ObjEq (pushReference idRef) := by
  intro s a s1 h
  cases s with
  | mk inp store objects references =>
    simp only [pushReference] at h
    cases h
    rfl

theorem objEq_pushStoreEntry (e : SEntry) : ObjEq (pushStoreEntry e) := by
  intro s a s1 h
  cases s with
  | mk inp store objects references =>
    simp only [pushStoreEntry] at h
    cases h
    rfl

theorem objEq_closeStoreEntry (idx : Nat) (r : Rec) : ObjEq (closeStoreEntry idx r) := by
  intro s a s1 h
  cases s with
  | mk inp store objects references =>
    simp only [closeStoreEntry] at h
    cases h
    rfl

theorem objEq_readBinaryArrayHeader : ObjEq readBinaryArrayHeader := by
  apply objEq_bind (objEq_readIntP 4)
  intro o
  apply objEq_bind objEq_readBinaryArrayTypeEnum
  intro bat
  apply objEq_bind (objEq_readIntP 4)
  intro rank
  apply objEq_bind (objEq_readInt32List rank.toNat)
  intro lengths
  apply objEq_ite <;>
    · apply objEq_bind
      · first
        | exact objEq_readInt32List rank.toNat
        | exact objEq_pure _
      · intro lb
        exact objEq_bind objEq_readBinaryTypeEnum fun bt =>
          objEq_bind (objEq_readBinaryTypeInfo bt) fun _ => objEq_pure _

theorem objEq_readSerializedStreamHeaderR : ObjEq readSerializedStreamHeaderR :=
  objEq_bind (objEq_readIntP 4) fun _ =>
    objEq_bind (objEq_readIntP 4) fun _ =>
      objEq_bind (objEq_readIntP 4) fun _ =>
        objEq_bind (objEq_readIntP 4) fun _ => objEq_pure _

theorem objEq_readBinaryObjectStringR : ObjEq readBinaryObjectStringR :=
  objEq_bind (objEq_readIntP 4) fun _ =>
    objEq_bind objEq_readString fun _ => objEq_pure _

theorem objEq_readSystemClassWithMembersR : ObjEq readSystemClassWithMembersR :=
  objEq_bind objEq_readClassInfo fun _ => objEq_pure _

theorem objEq_readClassWithMembersR : ObjEq readClassWithMembersR :=
  objEq_bind objEq_readClassInfo fun _ =>
    objEq_bind (objEq_readIntP 4) fun _ => objEq_pure _

theorem objEq_readMemberPrimitiveTypedR : ObjEq readMemberPrimitiveTypedR :=
  objEq_bind objEq_readPrimitiveTypeEnum fun pt =>
    objEq_bind (objEq_readPrimitive pt) fun _ => objEq_pure _

theorem objEq_readMemberReferenceR : ObjEq readMemberReferenceR :=
  objEq_bind (objEq_readIntP 4) fun idRef =>
    objEq_bind (objEq_pushReference idRef) fun _ => objEq_pure _

theorem objEq_readBinaryLibraryR : ObjEq readBinaryLibraryR :=
  objEq_bind (objEq_readIntP 4) fun _ =>
    objEq_bind objEq_readString fun _ => objEq_pure _

theorem objEq_readObjectNullMultiple256R : ObjEq readObjectNullMultiple256R :=
  objEq_bind objEq_readByteP fun _ => objEq_pure _

theorem objEq_readObjectNullMultipleR : ObjEq readObjectNullMultipleR :=
  objEq_bind (objEq_readIntP 4) fun _ => objEq_pure _

theorem objEq_readArraySinglePrimitiveR : ObjEq readArraySinglePrimitiveR :=
  objEq_bind objEq_readArrayInfo fun ai =>
    objEq_bind objEq_readPrimitiveTypeEnum fun pt =>
      objEq_bind (objEq_readPrimList pt ai.2.toNat) fun _ => objEq_pure _

end Udlg

namespace Udlg

/-- Joint objects-invariant preservation for the whole record decoder:
the only writes to `self.objects` are the class-record insertions of
`read_write_class_values`. -/
theorem decoderObjPres : ∀ fuel : Nat,
    ObjPres (readRecord fuel) ∧
    ObjPres (readClassWithId fuel) ∧
    (∀ system, ObjPres (readClassWithMembersAndTypes fuel system)) ∧
    (∀ mti idx total, ObjPres (readClassValuesGo fuel mti idx total)) ∧
    (∀ bt extra, ObjPres (readValue fuel bt extra)) ∧
    (∀ lengthVal i, ObjPres (readArrayValuesGo fuel lengthVal i)) ∧
    ObjPres (readBinaryArray fuel) ∧
    (∀ stringKind, ObjPres (readArraySingle fuel stringKind)) := by
  intro fuel
  induction fuel with
  | zero =>
    refine ⟨objPres_throw _, objPres_throw _, fun _ => objPres_throw _,
      fun _ _ _ => objPres_throw _, fun _ _ => objPres_throw _,
      fun _ _ => objPres_throw _, objPres_throw _, fun _ => objPres_throw _⟩
  | succ f ih =>
    obtain ⟨ihRec, ihCid, ihCmt, ihCvg, ihVal, ihAvg, ihBa, ihAs⟩ := ih
    have hRec : ObjPres (readRecord (f + 1)) := by
      rw [readRecord]
      apply objPres_bind objEq_readRecordTypeEnum.objPres
      intro rt
      cases rt
      case SerializedStreamHeader => exact objEq_readSerializedStreamHeaderR.objPres
      case ClassWithId => exact ihCid
      case SystemClassWithMembers => exact objEq_readSystemClassWithMembersR.objPres
      case ClassWithMembers => exact objEq_readClassWithMembersR.objPres
      case SystemClassWithMembersAndTypes => exact ihCmt true
      case ClassWithMembersAndTypes => exact ihCmt false
      case BinaryObjectString => exact objEq_readBinaryObjectStringR.objPres
      case BinaryArray => exact ihBa
      case MemberPrimitiveTyped => exact objEq_readMemberPrimitiveTypedR.objPres
      case MemberReference => exact objEq_readMemberReferenceR.objPres
      case ObjectNull => exact objPres_pure _
      case MessageEnd => exact objPres_pure _
      case BinaryLibrary => exact objEq_readBinaryLibraryR.objPres
      case ObjectNullMultiple256 => exact objEq_readObjectNullMultiple256R.objPres
      case ObjectNullMultiple => exact objEq_readObjectNullMultipleR.objPres
      case ArraySinglePrimitive => exact objEq_readArraySinglePrimitiveR.objPres
      case ArraySingleObject => exact ihAs false
      case ArraySingleString => exact ihAs true
      case MethodCall => exact objPres_throw _
      case MethodReturn => exact objPres_throw _
    have hCid : ObjPres (readClassWithId (f + 1)) := by
      rw [readClassWithId]
      apply objPres_bind (objEq_readIntP 4).objPres
      intro objectId
      apply objPres_bind (objEq_readIntP 4).objPres
      intro metadataId
      apply objPres_bind (objEq_resolveMetadata metadataId).objPres
      intro meta
      apply objPres_bind (ihCvg meta.2 0 meta.1.memberCount.toNat)
      intro values
      apply objPres_bind
        (objPres_storeObject objectId (.classWithId objectId metadataId values) trivial)
      intro _
      exact objPres_pure _
    have hCmt : ∀ system, ObjPres (readClassWithMembersAndTypes (f + 1) system) := by
      intro system
      rw [readClassWithMembersAndTypes]
      apply objPres_bind objEq_readClassInfo.objPres
      intro ci
      apply objPres_bind (objEq_readMemberTypeInfo ci.memberCount.toNat).objPres
      intro mti
      cases system
      case true =>
        rw [if_pos rfl]
        apply objPres_bind (objEq_pushStoreEntry _).objPres
        intro idx
        apply objPres_bind (ihCvg mti 0 ci.memberCount.toNat)
        intro values
        apply objPres_bind (objEq_closeStoreEntry _ _).objPres
        intro _
        apply objPres_bind (objPres_storeObject ci.objectId
          (.systemClassWithMembersAndTypes ci mti values) trivial)
        intro _
        exact objPres_pure _
      case false =>
        rw [if_neg (by simp)]
        apply objPres_bind (objEq_readIntP 4).objPres
        intro libraryId
        apply objPres_bind (objEq_pushStoreEntry _).objPres
        intro idx
        apply objPres_bind (ihCvg mti 0 ci.memberCount.toNat)
        intro values
        apply objPres_bind (objEq_closeStoreEntry _ _).objPres
        intro _
        apply objPres_bind (objPres_storeObject ci.objectId
          (.classWithMembersAndTypes ci mti libraryId values) trivial)
        intro _
        exact objPres_pure _
    have hCvg : ∀ mti idx total, ObjPres (readClassValuesGo (f + 1) mti idx total) := by
      intro mti idx total
      rw [readClassValuesGo]
      apply objPres_ite
      · apply objPres_bind (objEq_listIdxD _ _).objPres
        intro bt
        apply objPres_bind (objEq_listIdxD _ _).objPres
        intro extra
        apply objPres_bind (ihVal bt extra)
        intro v
        apply objPres_bind (ihCvg mti (idx + 1) total)
        intro rest
        exact objPres_pure _
      · exact objPres_pure _
    have hVal : ∀ bt extra, ObjPres (readValue (f + 1) bt extra) := by
      intro bt extra
      cases bt
      case Primitive =>
        cases extra
        case primType pt => exact objPres_bind (objEq_readPrimitive pt).objPres fun _ => objPres_pure _
        case sysClass tn => exact objPres_throw _
        case classTypeInfo tn lib => exact objPres_throw _
        case noInfo => exact objPres_throw _
      all_goals exact objPres_bind ihRec fun _ => objPres_pure _
    have hAvg : ∀ lengthVal i, ObjPres (readArrayValuesGo (f + 1) lengthVal i) := by
      intro lengthVal i
      rw [readArrayValuesGo]
      apply objPres_ite
      · apply objPres_bind ihRec
        intro r
        apply objPres_ite
        · exact objPres_throw _
        · apply objPres_bind (ihAvg lengthVal (i + r.slotContribution))
          intro rest
          exact objPres_pure _
      · exact objPres_pure _
    have hBa : ObjPres (readBinaryArray (f + 1)) := by
      rw [readBinaryArray]
      apply objPres_bind objEq_readBinaryArrayHeader.objPres
      intro hdr
      apply objPres_ite
      · exact objPres_throw _
      · cases hdr.lengths with
        | nil => exact objPres_throw _
        | cons cells rest =>
          apply objPres_bind (ihAvg cells 0)
          intro values
          exact objPres_pure _
    have hAs : ∀ stringKind, ObjPres (readArraySingle (f + 1) stringKind) := by
      intro stringKind
      rw [readArraySingle]
      apply objPres_bind objEq_readArrayInfo.objPres
      intro ai
      apply objPres_bind (ihAvg ai.2 0)
      intro values
      exact objPres_pure _
    exact ⟨hRec, hCid, hCmt, hCvg, hVal, hAvg, hBa, hAs⟩

end Udlg

namespace Udlg

theorem objEq_stripAndAppend (r : Rec) : ObjEq (stripAndAppend r) := by
  intro s a s1 h
  cases s with
  | mk inp store objects references =>
    simp only [stripAndAppend] at h
    cases h
    rfl

theorem objPres_parseLoop : ∀ f recFuel, ObjPres (parseLoop f recFuel) := by
  intro f
  induction f with
  | zero => intro recFuel; exact objPres_throw _
  | succ g ih =>
    intro recFuel
    rw [parseLoop]
    apply objPres_bind (decoderObjPres recFuel).1
    intro r
    apply objPres_bind (objEq_stripAndAppend r).objPres
    intro _
    apply objPres_ite
    · exact objPres_pure _
    · exact ih recFuel

theorem runParseLoop_objInv (header payload : Bytes) (c : Bool)
    (out : UdlgData) (st : DecSt)
    (h : runParseLoop header payload c = .ok (out, st)) : objInv st.objects := by
  unfold runParseLoop at h
  dsimp only at h
  split at h
  · rename_i u s1 heq
    cases h
    exact objPres_parseLoop _ _ _ u _ heq (by intro p hp; simp at hp)
  · cases h

theorem udlgParse_objInv (b : Bytes) (out : UdlgData) (st : DecSt)
    (h : udlgParse b = .ok (out, st)) : objInv st.objects := by
  unfold udlgParse at h
  split at h
  · dsimp only at h
    split at h
    · split at h
      · exact runParseLoop_objInv _ _ _ _ _ h
      · cases h
    · exact runParseLoop_objInv _ _ _ _ _ h
  · cases h

/-- S2's file: canonical header, `SerializedStreamHeader{1,-1,1,0}`,
`BinaryObjectString{object_id=1, value="hello"}`, `MessageEnd`. -/
def s2File : Bytes :=
  udlgSignature ++ [0, 0, 0, 0, 0, 0, 0, 0] ++
    [0x00, 1, 0, 0, 0, 0xFF, 0xFF, 0xFF, 0xFF, 1, 0, 0, 0, 0, 0, 0, 0] ++
    [0x06, 1, 0, 0, 0, 5, 0x68, 0x65, 0x6C, 0x6C, 0x6F] ++ [0x0B]

/-- A file holding the C3 example class and `MessageEnd`. -/
def c5ClassFile : Bytes :=
  udlgSignature ++ [0, 0, 0, 0, 0, 0, 0, 0] ++ c3ClassBytes ++ [0x0B]

/-- C5 counterexample: after decoding S2's stream, the string record
`BinaryObjectString{object_id=1}` is among the records but the object
index is *empty* — `by_object_id[1]` does not point at the string record
(`handle_binary_object_string` never touches `self.objects`). -/
theorem object_index_c5_counterexample :
    (udlgParse s2File).map (fun p => p.2.objects) = .ok [] ∧
    (udlgParse s2File).map (fun p => p.1.records) =
      .ok [.serializedStreamHeader 1 (-1) 1 0,
           .binaryObjectString 1 [0x68, 0x65, 0x6C, 0x6C, 0x6F],
           .messageEnd] :=
  ⟨rfl, rfl⟩

/-- C5 amended: the object index is populated only by
`read_write_class_values`, i.e. only with the records whose values it
reads (`ClassWithId`, `ClassWithMembersAndTypes`,
`SystemClassWithMembersAndTypes`) — string and array records are not
indexed, and references to them resolve by recursive search over the
record tree instead.  Concretely: S2's decode leaves the index empty,
while decoding a `ClassWithMembersAndTypes` with `ObjectId = 1` indexes
exactly that class record under 1. -/
theorem object_index_c5_amended :
    (∀ b out st, udlgParse b = .ok (out, st) → objInv st.objects) ∧
    (udlgParse s2File).map (fun p => p.2.objects) = .ok [] ∧
    (udlgParse c5ClassFile).map (fun p => p.2.objects) = .ok [(1, c3Rec)] :=
  ⟨udlgParse_objInv, rfl, rfl⟩

/-- Witness for `object_index_c5_amended`: the invariant evaluated on the
class file's decode. -/
theorem object_index_c5_amended_witness :
    objInv [(1, c3Rec)] := by
  have hparse : udlgParse c5ClassFile =
      .ok (⟨udlgSignature ++ [0, 0, 0, 0, 0, 0, 0, 0], [c3Rec, .messageEnd], false⟩,
           ⟨[], [.finished c3Rec, .finished .messageEnd], [(1, c3Rec)], []⟩) := by
    rfl
  exact object_index_c5_amended.1 c5ClassFile _ _ hparse

/-! ### C8: DateTime decoding — kind bits and tick masking -/

/-- `natToLE` always produces exactly `w` bytes. -/
theorem natToLE_length (w : Nat) : ∀ n : Nat, (natToLE w n).length = w := by
  induction w with
  | zero => intro n; rfl
  | succ k ih => intro n; simp [natToLE, ih]

/-- Reading back a little-endian encoding recovers the value mod `2^(8w)`. -/
theorem natFromLE_natToLE (w : Nat) : ∀ n : Nat, natFromLE (natToLE w n) = n % 2 ^ (8 * w) := by
  induction w with
  | zero => intro n; simp [natToLE, natFromLE, Nat.mod_one]
  | succ k ih =>
    intro n
    show n % 256 + 256 * natFromLE (natToLE k (n / 256)) = n % 2 ^ (8 * (k + 1))
    rw [ih]
    have h : 2 ^ (8 * (k + 1)) = 256 * 2 ^ (8 * k) := by
      rw [show 8 * (k + 1) = 8 + 8 * k by ring, Nat.pow_add]
    rw [h, Nat.mod_mul]

/-- `NetSerializer.read` on a stream that starts with exactly the encoded
bytes consumes them and leaves the rest. -/
theorem readB_exact (w n : Nat) (rest : Bytes) (st : List SEntry)
    (ob : List (Int × Rec)) (rf : List Int) :
    readB w ⟨natToLE w n ++ rest, st, ob, rf⟩ =
      .ok (natToLE w n, ⟨rest, st, ob, rf⟩) := by
  have hlen : (natToLE w n).length = w := natToLE_length w n
  have htake : (natToLE w n ++ rest).take w = natToLE w n := List.take_left' hlen
  have hdrop : (natToLE w n ++ rest).drop w = rest := List.drop_left' hlen
  have hle : w ≤ (natToLE w n ++ rest).length := by
    rw [List.length_append, hlen]; omega
  simp only [readB]
  rw [if_pos hle, htake, hdrop]

/-- Fixed-width signed read of an encoded value. -/
theorem readIntP_exact (w n : Nat) (rest : Bytes) (st : List SEntry)
    (ob : List (Int × Rec)) (rf : List Int) :
    readIntP w ⟨natToLE w n ++ rest, st, ob, rf⟩ =
      .ok (toSigned w (n % 2 ^ (8 * w)), ⟨rest, st, ob, rf⟩) := by
  unfold readIntP
  rw [decBind_eq _ _ _ _ _ (readB_exact w n rest st ob rf)]
  show (pure (toSigned w (natFromLE (natToLE w n))) : DecM Int) ⟨rest, st, ob, rf⟩ = _
  rw [natFromLE_natToLE]
  exact decPure_eq _ _

/-- Bits of `m` split at position 2. -/
theorem testBit_of_mod4 (m i : Nat) :
    Nat.testBit m i = if i < 2 then Nat.testBit (m % 4) i else Nat.testBit (m / 4) (i - 2) := by
  have hm : m = 2 ^ 2 * (m / 4) + m % 4 := by omega
  conv_lhs => rw [hm]
  exact Nat.testBit_mul_pow_two_add (m / 4) (show m % 4 < 2 ^ 2 by omega) i

/-- `Nat.ldiff 1 m` keeps bit 0 of `1` unless bit 0 of `m` is set. -/
theorem nat_ldiff_one (m : Nat) : Nat.ldiff 1 m = 1 - m % 2 := by
  apply Nat.eq_of_testBit_eq
  intro i
  rw [Nat.testBit_ldiff]
  cases i with
  | zero =>
    rcases Nat.mod_two_eq_zero_or_one m with h | h <;>
      simp [Nat.testBit_to_div_mod, h]
  | succ j =>
    have hp : 2 ^ j * 2 = 2 ^ (j + 1) := (Nat.pow_succ 2 j).symm
    have hpos : 0 < 2 ^ j := Nat.two_pow_pos j
    have h1 : (1 : Nat) / 2 ^ (j + 1) = 0 := Nat.div_eq_of_lt (by omega)
    have h2 : (1 - m % 2) / 2 ^ (j + 1) = 0 := Nat.div_eq_of_lt (by omega)
    simp [Nat.testBit_to_div_mod, h1, h2]

/-- `Nat.ldiff 2 m` keeps bit 1 of `2` unless bit 1 of `m` is set. -/
theorem nat_ldiff_two (m : Nat) : Nat.ldiff 2 m = if m / 2 % 2 = 1 then 0 else 2 := by
  apply Nat.eq_of_testBit_eq
  intro i
  rw [Nat.testBit_ldiff]
  have h2 : ∀ j, Nat.testBit 2 j = decide (j = 1) := fun j => by
    have h : (2 : Nat) = 2 ^ 1 := rfl
    rw [h, Nat.testBit_two_pow]
    simp [eq_comm]
  rw [h2]
  by_cases hm : m / 2 % 2 = 1
  · rw [if_pos hm]
    cases i with
    | zero => simp
    | succ j =>
      cases j with
      | zero => simp [Nat.testBit_to_div_mod, hm]
      | succ k => simp
  · rw [if_neg hm, h2]
    cases i with
    | zero => simp
    | succ j =>
      cases j with
      | zero => simp [Nat.testBit_to_div_mod, hm]
      | succ k => simp

/-- `m &&& 2` extracts bit 1. -/
theorem nat_and_two (m : Nat) : m &&& 2 = if m / 2 % 2 = 1 then 2 else 0 := by
  have h : m &&& 2 ^ 1 = (Nat.testBit m 1).toNat * 2 ^ 1 := Nat.and_two_pow m 1
  rw [Nat.testBit_to_div_mod] at h
  norm_num at h
  rw [h]
  by_cases hm : m / 2 % 2 = 1 <;> simp [hm]

/-- `Nat.ldiff m 3` clears the low two bits. -/
theorem nat_ldiff_three (m : Nat) : Nat.ldiff m 3 = m - m % 4 := by
  apply Nat.eq_of_testBit_eq
  intro i
  rw [Nat.testBit_ldiff, testBit_of_mod4 m i]
  have h3 : Nat.testBit 3 i = decide (i < 2) := by
    have h : (3 : Nat) = 2 ^ 2 - 1 := rfl
    rw [h, Nat.testBit_two_pow_sub_one]
  rw [h3]
  have hm : m - m % 4 = 2 ^ 2 * (m / 4) + 0 := by omega
  rw [hm, Nat.testBit_mul_pow_two_add (m / 4) (show (0 : Nat) < 2 ^ 2 by omega) i]
  by_cases hi : i < 2
  · simp [hi]
  · simp [hi]

/-- `m ||| 3` sets the low two bits. -/
theorem nat_lor_three (m : Nat) : m ||| 3 = m - m % 4 + 3 := by
  apply Nat.eq_of_testBit_eq
  intro i
  rw [Nat.testBit_or, testBit_of_mod4 m i]
  have h3 : Nat.testBit 3 i = decide (i < 2) := by
    have h : (3 : Nat) = 2 ^ 2 - 1 := rfl
    rw [h, Nat.testBit_two_pow_sub_one]
  rw [h3]
  have hm : m - m % 4 + 3 = 2 ^ 2 * (m / 4) + 3 := by omega
  rw [hm, Nat.testBit_mul_pow_two_add (m / 4) (show (3 : Nat) < 2 ^ 2 by omega) i, h3]
  by_cases hi : i < 2
  · simp [hi]
  · simp [hi]

/-- `Int.land` on the constructors, low bit. -/
theorem int_land_ofNat_one (m : Nat) : Int.land (Int.ofNat m) 1 = Int.ofNat (m &&& 1) := rfl

theorem int_land_negSucc_one (m : Nat) : Int.land (Int.negSucc m) 1 = Int.ofNat (Nat.ldiff 1 m) := rfl

theorem int_land_ofNat_two (m : Nat) : Int.land (Int.ofNat m) 2 = Int.ofNat (m &&& 2) := rfl

theorem int_land_negSucc_two (m : Nat) : Int.land (Int.negSucc m) 2 = Int.ofNat (Nat.ldiff 2 m) := rfl

theorem int_land_ofNat_negFour (m : Nat) : Int.land (Int.ofNat m) (-4) = Int.ofNat (Nat.ldiff m 3) := rfl

theorem int_land_negSucc_negFour (m : Nat) :
    Int.land (Int.negSucc m) (-4) = Int.negSucc (m ||| 3) := rfl

/-- Testing the low bit of an integer via `Int.land`. -/
theorem int_land_one_ne (v : Int) : Int.land v 1 ≠ 0 ↔ v % 2 = 1 := by
  cases v with
  | ofNat m =>
    rw [int_land_ofNat_one, Nat.and_one_is_mod]
    simp only [Int.ofNat_eq_coe]
    omega
  | negSucc m =>
    rw [int_land_negSucc_one, nat_ldiff_one]
    simp only [Int.ofNat_eq_coe, Int.negSucc_eq]
    omega

/-- Testing bit 1 of an integer via `Int.land`. -/
theorem int_land_two_ne (v : Int) : Int.land v 2 ≠ 0 ↔ 2 ≤ v % 4 := by
  cases v with
  | ofNat m =>
    rw [int_land_ofNat_two, nat_and_two]
    by_cases hm : m / 2 % 2 = 1 <;>
      simp only [hm, if_true, if_false, Int.ofNat_eq_coe] <;> omega
  | negSucc m =>
    rw [int_land_negSucc_two, nat_ldiff_two]
    by_cases hm : m / 2 % 2 = 1 <;>
      simp only [hm, if_true, if_false, Int.ofNat_eq_coe, Int.negSucc_eq] <;> omega

/-- `Int.land v (-4)` clears the low two bits: it subtracts `v % 4`. -/
theorem int_land_negfour (v : Int) : Int.land v (-4) = v - v % 4 := by
  cases v with
  | ofNat m =>
    rw [int_land_ofNat_negFour, nat_ldiff_three]
    simp only [Int.ofNat_eq_coe]
    omega
  | negSucc m =>
    rw [int_land_negSucc_negFour, nat_lor_three]
    simp only [Int.negSucc_eq]
    omega

/-- The kind selection of `read_write_datetime` in terms of `v % 2` /
`v % 4`: bit 0 set gives Utc (also when bit 1 is set), otherwise bit 1
set gives Local, otherwise Unspecified. -/
theorem datetime_kind_eq (v : Int) :
    (if Int.land v 1 ≠ 0 then DtKind.utc
     else if Int.land v 2 ≠ 0 then DtKind.local
     else DtKind.unspecified) =
    (if v % 2 = 1 then DtKind.utc
     else if v % 4 = 2 then DtKind.local
     else DtKind.unspecified) := by
  by_cases h1 : Int.land v 1 ≠ 0
  · rw [if_pos h1, if_pos ((int_land_one_ne v).mp h1)]
  · rw [if_neg h1]
    have h1a : ¬ v % 2 = 1 := fun hc => h1 ((int_land_one_ne v).mpr hc)
    rw [if_neg h1a]
    by_cases h2 : Int.land v 2 ≠ 0
    · rw [if_pos h2]
      have h2a : 2 ≤ v % 4 := (int_land_two_ne v).mp h2
      have h4 : v % 4 = 2 := by omega
      rw [if_pos h4]
    · rw [if_neg h2]
      have h2a : ¬ 2 ≤ v % 4 := fun hc => h2 ((int_land_two_ne v).mpr hc)
      have h4 : ¬ v % 4 = 2 := by omega
      rw [if_neg h4]

/-- **C8**: `read_write_datetime` (read mode) consumes an 8-byte
little-endian Int64 `v`; the low two bits select the `DateTimeKind` —
bit 0 set gives Utc (Utc wins when both are set), otherwise bit 1 set
gives Local, otherwise Unspecified — and the returned ticks are `v` with
the low two bits masked to zero (so ticks is divisible by 4). -/
theorem datetime_kind_c8 (n : Nat) (rest : Bytes) (st : List SEntry)
    (ob : List (Int × Rec)) (rf : List Int) (h : n < 2 ^ 64) :
    readDatetime ⟨natToLE 8 n ++ rest, st, ob, rf⟩ =
      .ok (.pDateTime
            (if toSigned 8 n % 2 = 1 then DtKind.utc
             else if toSigned 8 n % 4 = 2 then DtKind.local
             else DtKind.unspecified)
            (toSigned 8 n - toSigned 8 n % 4),
          ⟨rest, st, ob, rf⟩)
      ∧ (toSigned 8 n - toSigned 8 n % 4) % 4 = 0 := by
  constructor
  · have hr : readIntP 8 ⟨natToLE 8 n ++ rest, st, ob, rf⟩ =
        .ok (toSigned 8 n, ⟨rest, st, ob, rf⟩) := by
      have he := readIntP_exact 8 n rest st ob rf
      rwa [show (2 : Nat) ^ (8 * 8) = 2 ^ 64 by norm_num, Nat.mod_eq_of_lt h] at he
    unfold readDatetime
    rw [decBind_eq _ _ _ _ _ hr]
    show (pure (.pDateTime
        (if Int.land (toSigned 8 n) 1 ≠ 0 then DtKind.utc
         else if Int.land (toSigned 8 n) 2 ≠ 0 then DtKind.local
         else DtKind.unspecified)
        (Int.land (toSigned 8 n) (-4))) : DecM PrimValue) ⟨rest, st, ob, rf⟩ = _
    rw [datetime_kind_eq, int_land_negfour]
    exact decPure_eq _ _
  · omega

/-- Witness for `datetime_kind_c8`: the 8 bytes `07 00 00 00 00 00 00 80`
encode the Int64 `-9223372036854775801` (low bits `11`), so the kind is
Utc and the ticks are `-9223372036854775804`. -/
theorem datetime_kind_c8_witness :
    7 + 2 ^ 63 < 2 ^ 64 ∧
    readDatetime ⟨natToLE 8 (7 + 2 ^ 63) ++ [0xAA], [], [], []⟩ =
      .ok (.pDateTime DtKind.utc (-9223372036854775804), ⟨[0xAA], [], [], []⟩) := by
  constructor
  · norm_num
  · have h := (datetime_kind_c8 (7 + 2 ^ 63) [0xAA] [] [] [] (by norm_num)).1
    rw [h]
    rfl

/-! ### C9: gzip XFL/OS splice and compress/decompress round-trip -/

/-- A stored block with `BFINAL = 1` inflates to its payload, leaving the
trailer. -/
theorem inflateStored_final_block (fi : Nat) (d trailer : Bytes) (h : d.length ≤ 65535) :
    inflateStored (fi + 1)
      (1 :: d.length % 256 :: d.length / 256 % 256 ::
        (65535 - d.length) % 256 :: (65535 - d.length) / 256 % 256 :: (d ++ trailer)) =
      .ok (d, trailer) := by
  simp only [inflateStored]
  have e1 : d.length % 256 + 256 * (d.length / 256 % 256) = d.length := by omega
  have e2 : (65535 - d.length) % 256 + 256 * ((65535 - d.length) / 256 % 256) =
      65535 - d.length := by omega
  rw [e1, e2]
  have hcond : (1 : Nat) ≤ 1 ∧ 65535 - d.length = 65535 - d.length ∧
      d.length ≤ (d ++ trailer).length := by
    refine ⟨by omega, rfl, ?_⟩
    rw [List.length_append]; omega
  rw [if_pos hcond, if_pos trivial, List.take_left, List.drop_left]

/-- A stored block with `BFINAL = 0` inflates its 65535-byte payload and
recurses on the remainder. -/
theorem inflateStored_chunk_block (fi : Nat) (c g2 trailer : Bytes) (hc : c.length = 65535) :
    inflateStored (fi + 1) (0 :: 255 :: 255 :: 0 :: 0 :: ((c ++ g2) ++ trailer)) =
      (match inflateStored fi (g2 ++ trailer) with
       | .ok (more, tr) => .ok (c ++ more, tr)
       | .error e => .error e) := by
  have hassoc : (c ++ g2) ++ trailer = c ++ (g2 ++ trailer) := List.append_assoc c g2 trailer
  simp only [inflateStored]
  rw [hassoc]
  have hcond : (0 : Nat) ≤ 1 ∧ True ∧ 65535 ≤ (c ++ (g2 ++ trailer)).length := by
    refine ⟨by omega, trivial, ?_⟩
    rw [List.length_append, hc]; omega
  rw [if_pos hcond, if_neg (by norm_num : ¬ (0 : Nat) = 1)]
  have htake : (c ++ (g2 ++ trailer)).take 65535 = c := List.take_left' hc
  have hdrop : (c ++ (g2 ++ trailer)).drop 65535 = g2 ++ trailer := List.drop_left' hc
  rw [htake, hdrop]

/-- With enough fuel, the stored-block encoder's output is at least as
long as its input. -/
theorem deflateStoredGo_length : ∀ (fd : Nat) (d : Bytes), d.length + 1 ≤ fd →
    d.length ≤ (deflateStoredGo fd d).length := by
  intro fd
  induction fd with
  | zero => intro d hle; omega
  | succ f ih =>
    intro d hle
    simp only [deflateStoredGo]
    by_cases hlen : d.length ≤ 65535
    · rw [if_pos hlen]
      simp only [List.length_cons, List.length_append, natToLE_length]
      omega
    · rw [if_neg hlen]
      have ih2 := ih (d.drop 65535) (by rw [List.length_drop]; omega)
      rw [List.length_drop] at ih2
      simp only [List.length_cons, List.length_append, List.length_take, natToLE_length]
      omega

/-- Inflating the stored-block encoding of `d` (with a trailer appended)
returns `d` and the trailer, for any inflate fuel at least the deflate
fuel. -/
theorem inflate_deflateGo : ∀ (fd : Nat) (d trailer : Bytes) (fi : Nat),
    d.length + 1 ≤ fd → fd ≤ fi →
    inflateStored fi (deflateStoredGo fd d ++ trailer) = .ok (d, trailer) := by
  intro fd
  induction fd with
  | zero => intro d trailer fi h1 h2; omega
  | succ f ih =>
    intro d trailer fi h1 h2
    obtain ⟨fi2, rfl⟩ : ∃ fi2, fi = fi2 + 1 := ⟨fi - 1, by omega⟩
    simp only [deflateStoredGo]
    by_cases hlen : d.length ≤ 65535
    · rw [if_pos hlen]
      exact inflateStored_final_block fi2 d trailer hlen
    · rw [if_neg hlen]
      have hc : (d.take 65535).length = 65535 := by
        rw [List.length_take]; omega
      refine Eq.trans
        (inflateStored_chunk_block fi2 (d.take 65535)
          (deflateStoredGo f (d.drop 65535)) trailer hc) ?_
      have hrec := ih (d.drop 65535) trailer fi2
        (by rw [List.length_drop]; omega) (by omega)
      rw [hrec]
      simp [List.take_append_drop]

/-- `decompress_gzip_zlib` on a well-formed gzip stream whose XFL/OS
bytes are arbitrary: the header fields it checks are the magic, `CM` and
`FLG`; `MTIME`, `XFL` and `OS` are ignored. -/
theorem decompressGzipZlib_gzip (xfl os : Nat) (d : Bytes) :
    decompressGzipZlib (0x1F :: 0x8B :: 8 :: 0 :: 0 :: 0 :: 0 :: 0 :: xfl :: os ::
        (deflateStored d ++ (natToLE 4 (crc32 d) ++ natToLE 4 (d.length % 2 ^ 32)))) =
      .ok d := by
  have hinf : inflateStored
      ((deflateStored d ++ (natToLE 4 (crc32 d) ++ natToLE 4 (d.length % 2 ^ 32))).length + 1)
      (deflateStored d ++ (natToLE 4 (crc32 d) ++ natToLE 4 (d.length % 2 ^ 32))) =
      .ok (d, natToLE 4 (crc32 d) ++ natToLE 4 (d.length % 2 ^ 32)) := by
    rw [show deflateStored d = deflateStoredGo (d.length + 1) d from rfl]
    apply inflate_deflateGo
    · omega
    · rw [List.length_append]
      have hlen := deflateStoredGo_length (d.length + 1) d (by omega)
      omega
  simp only [decompressGzipZlib]
  rw [if_pos (⟨trivial, trivial, trivial, trivial⟩ : True ∧ True ∧ True ∧ True)]
  rw [hinf]
  simp

/-- **C9**: `compress_gzip_zlib` always produces output whose 9th and
10th bytes (XFL, OS) are `04 00`, and `decompress_gzip_zlib` — which
does not enforce the XFL/OS bytes — recovers the original data exactly,
from the spliced output as well as from the raw gzip stream. -/
theorem gzip_xflos_c9 (d : Bytes) :
    (compressGzipZlib d)[8]? = some 0x04 ∧ (compressGzipZlib d)[9]? = some 0x00 ∧
      decompressGzipZlib (compressGzipZlib d) = .ok d ∧
      decompressGzipZlib (gzipRaw d) = .ok d := by
  have hcomp : compressGzipZlib d =
      0x1F :: 0x8B :: 8 :: 0 :: 0 :: 0 :: 0 :: 0 :: 0x04 :: 0x00 ::
        ((deflateStored d ++ natToLE 4 (crc32 d)) ++ natToLE 4 (d.length % 2 ^ 32)) := rfl
  have hraw : gzipRaw d =
      0x1F :: 0x8B :: 8 :: 0 :: 0 :: 0 :: 0 :: 0 :: 0 :: 3 ::
        ((deflateStored d ++ natToLE 4 (crc32 d)) ++ natToLE 4 (d.length % 2 ^ 32)) := rfl
  have hassoc : (deflateStored d ++ natToLE 4 (crc32 d)) ++ natToLE 4 (d.length % 2 ^ 32) =
      deflateStored d ++ (natToLE 4 (crc32 d) ++ natToLE 4 (d.length % 2 ^ 32)) :=
    List.append_assoc _ _ _
  refine ⟨?_, ?_, ?_, ?_⟩
  · rw [hcomp]
    simp [List.getElem?_cons_succ, List.getElem?_cons_zero]
  · rw [hcomp]
    simp [List.getElem?_cons_succ, List.getElem?_cons_zero]
  · rw [hcomp, hassoc]
    exact decompressGzipZlib_gzip 4 0 d
  · rw [hraw, hassoc]
    exact decompressGzipZlib_gzip 0 3 d

end Udlg
